import Mathlib

/-!
# Verification of the rentals-investment pipeline

A shallow embedding of `src/rentals_investment_pipeline.py`.

Modelling conventions:
* pandas/numpy float cells are modelled by `PVal`: exact rationals plus the
  IEEE-754 special values NaN, +inf, -inf (and strings, which pandas keeps as
  objects).  Arithmetic on them follows IEEE-754 semantics as numpy implements
  them (`x / 0 = ±inf` for `x ≠ 0`, `0 / 0 = NaN`, NaN propagates, ...).
* a `DF` is a pandas DataFrame: an ordered list of column labels plus rows of
  cells, rectangular by construction.
* operations that can raise an uncaught Python exception (`KeyError` from
  `df.drop`/`df[col]`, `IndexError` from `.iloc[0]`, `TypeError` from dividing
  non-numeric cells) return `Option`, with `none` standing for the exception.
* the artifact store (`co.data.pipeline`) is a key-addressed map from path to
  the persisted table; CSV serialisation is the identity in the model (the
  written values are exactly the read-back values).
* the upstream HTTP responses that successive calls of `_get_rental_data` /
  `_get_sales_data` would return are supplied to an acquisition as a list of
  `Raw` values; the self-recursive retry on a malformed payload consumes the
  next element.  `.exhausted` marks running out of supplied responses (the
  source would keep recursing); `.crash` marks an uncaught exception.
-/

namespace Pipeline

attribute [local semireducible] Rat.mul Rat.inv Rat.add Rat.sub

/-- A scalar cell value as held by pandas: a (float or int) number, a string,
or one of the IEEE-754 special values NaN / +inf / -inf. -/
inductive PVal where
  | num : ℚ → PVal
  | str : String → PVal
  | nan : PVal
  | pinf : PVal
  | ninf : PVal
deriving DecidableEq

/-- A listing field value as it appears in the decoded JSON: a scalar, or a
(one-level) nested JSON object such as `address` / `lot_size` /
`building_size`. -/
inductive LVal where
  | scalar : PVal → LVal
  | obj : List (String × PVal) → LVal
deriving DecidableEq

/-- One listing object from the `properties` array: an ordered association of
field names to values (a Python dict, so keys are unique in practice). -/
abbrev Listing := List (String × LVal)

/-- A pandas DataFrame: ordered column labels and rows of cells.  Every row
produced by the modelled operations has exactly `cols.length` cells. -/
structure DF where
  cols : List String
  rows : List (List LVal)
deriving DecidableEq

instance : Inhabited DF := ⟨⟨[], []⟩⟩

/-- Keys in order of first appearance (how `pd.DataFrame(list_of_dicts)`
orders its columns). -/
def firstDedup : List String → List String
  | [] => []
  | a :: l => a :: (firstDedup l).filter (fun b => ¬ (b = a))

/-- Cell of listing `l` at key `k`; a key absent from a dict becomes NaN when
`pd.DataFrame` aligns the rows. -/
def getField (l : Listing) (k : String) : LVal :=
  match l.lookup k with
  | some v => v
  | none => .scalar .nan

/-- `pd.DataFrame(listings)`: columns are the union of the dicts' keys in
first-appearance order; each row is the listing's values aligned to those
columns, NaN where a key is missing. -/
def mkDF (ls : List Listing) : DF :=
  let cs := firstDedup ((ls.map (fun l => l.map Prod.fst)).flatten)
  ⟨cs, ls.map (fun l => cs.map (getField l))⟩

/-- `pd.Series` applied to one cell (the body of `df[col].apply(pd.Series)`):
a dict gives its fields; a scalar — including the NaN of a listing that lacks
the field — gives a single entry labelled `"0"`. -/
def seriesOf : LVal → List (String × PVal)
  | .obj fs => fs
  | .scalar v => [("0", v)]

/-- `df[c]` as a list of cells (first matching label); `none` models the
`KeyError` when the column is absent. -/
def getCol (df : DF) (c : String) : Option (List LVal) :=
  match df.cols.findIdx? (fun b => b = c) with
  | none => none
  | some i => some (df.rows.map (fun r => r.getD i (.scalar .nan)))

/-- One iteration of the `cols_to_expand` loop:
`df = pd.concat([df.drop(col, axis=1), df[col].apply(pd.Series).add_prefix(pfx)], axis=1)`
(with an empty `pfx` for `address`).  `none` models the `KeyError` raised by
`df.drop` / `df[col]` when the column is absent.  The expansion's columns are
the union of the cells' sub-keys; the model keeps them in first-appearance
order (pandas may instead sort a homogeneous union, which only permutes the
column order and is never relied upon below). -/
def expandCol (df : DF) (col : String) (pfx : String) : Option DF :=
  match df.cols.findIdx? (fun b => b = col) with
  | none => none
  | some i =>
    let subCols := firstDedup ((df.rows.map
      (fun r => (seriesOf (r.getD i (.scalar .nan))).map Prod.fst)).flatten)
    some ⟨df.cols.eraseIdx i ++ subCols.map (fun k => pfx ++ k),
          df.rows.map (fun r =>
            let sr := seriesOf (r.getD i (.scalar .nan))
            r.eraseIdx i ++ subCols.map (fun k =>
              LVal.scalar ((sr.lookup k).getD .nan)))⟩

/-- `df[c] = vals` (also `df.loc[:, c] = vals`): overwrite every column
labelled `c` if one exists, else append a new column at the end. -/
def setCol (df : DF) (c : String) (vals : List LVal) : DF :=
  if df.cols.contains c then
    ⟨df.cols, (df.rows.zip vals).map (fun rv =>
      (df.cols.zip rv.1).map (fun nv => if nv.1 = c then rv.2 else nv.2))⟩
  else
    ⟨df.cols ++ [c], (df.rows.zip vals).map (fun rv => rv.1 ++ [rv.2])⟩

/-- The numeric content of a cell (the KPI columns are numeric whenever the
guard `numericCell` below holds). -/
def toP : LVal → PVal
  | .scalar v => v
  | .obj _ => .nan

/-- A cell numpy can do float arithmetic on: a number, NaN or ±inf. -/
def numericCell : LVal → Bool
  | .scalar (.str _) => false
  | .obj _ => false
  | _ => true

/-- IEEE-754 division as `df[a] / df[b]` performs it elementwise: a nonzero
number over zero gives a signed infinity, `0 / 0` gives NaN, NaN propagates,
a finite number over an infinity gives `0`. -/
def pdiv : PVal → PVal → PVal
  | .num a, .num b =>
      if b = 0 then (if a = 0 then .nan else if 0 < a then .pinf else .ninf)
      else .num (a / b)
  | .num _, .pinf => .num 0
  | .num _, .ninf => .num 0
  | .pinf, .num b => if 0 ≤ b then .pinf else .ninf
  | .ninf, .num b => if 0 ≤ b then .ninf else .pinf
  | _, _ => .nan

/-- Is the cell's value NaN? -/
def isNan : PVal → Bool
  | .nan => true
  | _ => false

/-- A non-finite (undefined) KPI value: NaN or a signed infinity. -/
def nonFinite : PVal → Bool
  | .nan => true
  | .pinf => true
  | .ninf => true
  | _ => false

/-- Sort key embedding the order numpy sorts floats in:
`-inf < numbers < +inf` (NaN and strings never reach a sort in the model). -/
def pkey (x : PVal) : ℕ ×ₗ ℚ :=
  match x with
  | .ninf => toLex (0, 0)
  | .num a => toLex (1, a)
  | .pinf => toLex (2, 0)
  | .nan => toLex (3, 0)
  | .str _ => toLex (4, 0)

/-- Mean of the two middle elements for an even-length median, in IEEE-754
float arithmetic (`(x + y) / 2`). -/
def pavg : PVal → PVal → PVal
  | .num a, .num b => .num ((a + b) / 2)
  | .num _, .pinf => .pinf
  | .pinf, .num _ => .pinf
  | .num _, .ninf => .ninf
  | .ninf, .num _ => .ninf
  | .pinf, .pinf => .pinf
  | .ninf, .ninf => .ninf
  | _, _ => .nan

/-- `pandas.Series.median()` (default `skipna=True`): NaN values are dropped,
every remaining value — infinities included — participates; the result is NaN
for an empty (post-drop) series, the middle element for an odd count, and the
mean of the two middle elements for an even count. -/
def pmedian (xs : List PVal) : PVal :=
  let ys := (xs.filter (fun x => ¬ isNan x)).insertionSort
    (fun a b => pkey a ≤ pkey b)
  if ys.length = 0 then .nan
  else if ys.length % 2 = 1 then ys.getD (ys.length / 2) .nan
  else pavg (ys.getD (ys.length / 2 - 1) .nan) (ys.getD (ys.length / 2) .nan)

/-- The spec's words for the median used downstream: "the medians over only
the finite KPI values".  Kept separate from `pmedian` (the code's median) so
the two can be compared. -/
def specFiniteMedian (xs : List PVal) : PVal :=
  pmedian (xs.filter (fun x => ¬ nonFinite x))

/-- `df[c].median()`: `none` models the `KeyError` (missing column) or
`TypeError` (non-numeric cells) pandas would raise. -/
def medianCol (df : DF) (c : String) : Option PVal :=
  match getCol df c with
  | none => none
  | some vals =>
    if vals.all numericCell then some (pmedian (vals.map toP)) else none

/-- The artifact store `co.data.pipeline`: a key-addressed map from path to
the persisted table; `put` shadows any previous artifact at the same path. -/
abbrev Store := List (String × DF)

/-- `co.data.pipeline.put(path, ...)`: overwrite the artifact at `path`. -/
def Store.put (s : Store) (p : String) (df : DF) : Store := (p, df) :: s

/-- `check_run_today(path)`: `some none` models returning `False` (no
artifact); `some (some v)` models returning `df['run_date'].iloc[0]`; `none`
models the uncaught exception when the artifact lacks a `run_date` column
(`KeyError`) or has no rows (`IndexError` from `.iloc[0]`). -/
def check_run_today (s : Store) (path : String) : Option (Option LVal) :=
  match s.lookup path with
  | none => some none
  | some df =>
    match getCol df "run_date" with
    | none => none
    | some vals =>
      match vals.head? with
      | none => none
      | some v => some (some v)

/-- Elementwise division of two columns (`df[a] / df[b]`). -/
def kdiv (xs ys : List LVal) : List LVal :=
  (xs.zip ys).map (fun xy => LVal.scalar (pdiv (toP xy.1) (toP xy.2)))

/-- `get_kpis(df)`: appends/overwrites the three per-listing KPI columns
`price_per_sqft = price / building_size_size`, `price_per_beds = price / beds`,
`price_per_bath = price / baths`.  `none` models a pandas exception: a missing
input column (`KeyError`) or non-numeric cells (`TypeError`). -/
def get_kpis (df : DF) : Option DF :=
  match getCol df "price", getCol df "building_size_size",
        getCol df "beds", getCol df "baths" with
  | some ps, some sq, some bd, some ba =>
    if (ps ++ sq ++ bd ++ ba).all numericCell then
      some (setCol (setCol (setCol df "price_per_sqft" (kdiv ps sq))
              "price_per_beds" (kdiv ps bd)) "price_per_bath" (kdiv ps ba))
    else none
  | _, _, _, _ => none

/-- `cols_to_expand` in `gen_rental_data` (lines 117-121). -/
def COLS_EXPAND_RENTAL : List String := ["address", "lot_size", "building_size"]

/-- `cols_to_expand` in `gen_sales_data` (lines 193-197): note the swapped
order of the last two entries relative to the rental version. -/
def COLS_EXPAND_SALES : List String := ["address", "building_size", "lot_size"]

/-- The prefix the expansion loop passes to `add_prefix`: empty for columns in
`['address']`, `col + '_'` otherwise. -/
def pfxOf (col : String) : String :=
  if (["address"] : List String).contains col then "" else col ++ "_"

/-- The `cols_to_expand` loop of `gen_rental_data` / `gen_sales_data` applied
to `pd.DataFrame(properties)`: each listed column is expanded, `address`
unprefixed and the others prefixed with `col + '_'`. -/
def expandAll (colsToExpand : List String) (ls : List Listing) : Option DF :=
  colsToExpand.foldlM (fun df col => expandCol df col (pfxOf col)) (mkDF ls)

/-- The tabularisation performed by `gen_rental_data` / `gen_sales_data` on a
parsed `properties` list: `pd.DataFrame`, the expansion loop,
`df['run_date'] = today`, then `get_kpis`. -/
def normalize (colsToExpand : List String) (today : String)
    (ls : List Listing) : Option DF := do
  let df1 ← expandAll colsToExpand ls
  let df2 := setCol df1 "run_date" (df1.rows.map (fun _ => .scalar (.str today)))
  get_kpis df2

/-- The result of one upstream fetch as `json.loads(data)['properties']` sees
it: either text that fails to parse as JSON / lacks the `properties` key, or a
parsed list of listing objects. -/
inductive Raw where
  | malformed : String → Raw
  | payload : List Listing → Raw
deriving DecidableEq

/-- How one acquisition call ended. -/
inductive Outcome where
  /-- the staleness check found today's artifact: informational no-op -/
  | alreadyToday : Outcome
  /-- parsed payload had zero listings: informational, nothing written -/
  | noListings : Outcome
  /-- an artifact was computed and written -/
  | wrote : Outcome
  /-- the supplied response list ran out while the code was still retrying -/
  | exhausted : Outcome
  /-- an uncaught exception -/
  | crash : Outcome
deriving DecidableEq

/-- Result of an acquisition: how many upstream fetches it performed, the
resulting store, and how it ended. -/
structure AcqResult where
  fetches : ℕ
  store : Store
  outcome : Outcome
deriving DecidableEq

/-- `gen_rental_data` / `gen_sales_data`, parameterised by the
`cols_to_expand` order (their only difference besides the endpoint queried,
which is outside the model).  `rs` lists the raw responses successive fetches
would return; the recursive retry on a malformed payload consumes the next
one. -/
def gen_data (colsToExpand : List String) (today path : String)
    (store : Store) : List Raw → AcqResult
  | [] =>
    match check_run_today store path with
    | none => ⟨0, store, .crash⟩
    | some chk =>
      if chk = some (.scalar (.str today)) then ⟨0, store, .alreadyToday⟩
      else ⟨0, store, .exhausted⟩
  | r :: rest =>
    match check_run_today store path with
    | none => ⟨0, store, .crash⟩
    | some chk =>
      if chk = some (.scalar (.str today)) then ⟨0, store, .alreadyToday⟩
      else
        match r with
        | .malformed _ =>
          let k := gen_data colsToExpand today path store rest
          ⟨k.fetches + 1, k.store, k.outcome⟩
        | .payload props =>
          if props.isEmpty then ⟨1, store, .noListings⟩
          else
            match normalize colsToExpand today props with
            | none => ⟨1, store, .crash⟩
            | some df => ⟨1, store.put path df, .wrote⟩

/-- `gen_rental_data(path, api_key, zip_code)` (the api key and zip code only
parameterise the fetch, whose results `rs` supplies). -/
def gen_rental_data (today path : String) (store : Store)
    (rs : List Raw) : AcqResult :=
  gen_data COLS_EXPAND_RENTAL today path store rs

/-- `gen_sales_data(path, api_key, zip_code)`. -/
def gen_sales_data (today path : String) (store : Store)
    (rs : List Raw) : AcqResult :=
  gen_data COLS_EXPAND_SALES today path store rs

/-- The configured zip codes. -/
def ZIP_CODES : List String := ["55414", "53711", "53545", "53202", "55806"]

/-- `f'data/rentals_{zip_code}.csv'` -/
def rentalPath (z : String) : String := "data/rentals_" ++ z ++ ".csv"

/-- `f'data/sales_{zip_code}.csv'` -/
def salesPath (z : String) : String := "data/sales_" ++ z ++ ".csv"

/-- One iteration of the loop in `analyze`: `some none` when either dataset is
absent (informational skip), `some (some entry)` when both are present and the
medians compute, `none` when pandas raises while computing them (the printed
KPI table reads all three KPI columns of both frames). -/
def zipEntry (s : Store) (z : String) : Option (Option (String × PVal)) :=
  match s.lookup (rentalPath z), s.lookup (salesPath z) with
  | some rdf, some sdf => do
    let mr ← medianCol rdf "price_per_sqft"
    let ms ← medianCol sdf "price_per_sqft"
    let _ ← medianCol rdf "price_per_beds"
    let _ ← medianCol rdf "price_per_bath"
    let _ ← medianCol sdf "price_per_beds"
    let _ ← medianCol sdf "price_per_bath"
    pure (some (z, pdiv mr ms))
  | _, _ => some none

/-- Descending comparison on the entries' values (`sort_values` with
`ascending=False`). -/
def rankLE (a b : String × PVal) : Prop := pkey b.2 ≤ pkey a.2

instance : DecidableRel rankLE := fun a b =>
  inferInstanceAs (Decidable (pkey b.2 ≤ pkey a.2))

instance : IsTotal (String × PVal) rankLE :=
  ⟨fun a b => le_total (pkey b.2) (pkey a.2)⟩

instance : IsTrans (String × PVal) rankLE :=
  ⟨fun _ _ _ h1 h2 => le_trans h2 h1⟩

/-- `pd.Series(d).sort_values(ascending=False)`: a stable descending sort of
the non-NaN entries (numpy's sort is insertion sort — stable — at these array
sizes), with NaN-valued entries placed last (`na_position='last'`) in their
original order. -/
def sortRanking (l : List (String × PVal)) : List (String × PVal) :=
  (l.filter (fun e => ¬ isNan e.2)).insertionSort rankLE ++
    l.filter (fun e => isNan e.2)

/-- `analyze()`: build the zip-to-quotient mapping in `ZIP_CODES` order for
the zips whose two artifacts both exist, then sort it descending.  `none`
models an uncaught pandas exception while reading a stored frame. -/
def analyze (s : Store) : Option (List (String × PVal)) := do
  let entries ← ZIP_CODES.foldlM (fun acc z => do
    let e ← zipEntry s z
    match e with
    | some p => pure (acc ++ [p])
    | none => pure acc) ([] : List (String × PVal))
  pure (sortRanking entries)

/-- The cell of record `i` in column `c` (`df[c].iloc[i]`). -/
def cellAt (df : DF) (i : ℕ) (c : String) : Option LVal :=
  (getCol df c).bind (fun vals => vals.get? i)

/-- The rows of a table as association lists pairing each cell with its
column label. -/
def rowAssoc (df : DF) : List (List (String × LVal)) :=
  df.rows.map (fun r => df.cols.zip r)

/-- The cell of an association row at column `c` (first matching label, NaN
when absent). -/
def cellOf (pr : List (String × LVal)) (c : String) : LVal :=
  ((pr.find? (fun q => q.1 = c)).map Prod.snd).getD (.scalar .nan)

/-- The union of sub-keys that expanding column `c` produces, computed from
the association rows. -/
def expSubCols (prs : List (List (String × LVal))) (c : String) : List String :=
  firstDedup ((prs.map
    (fun pr => (seriesOf (cellOf pr c)).map Prod.fst)).flatten)

/-- Rectangularity: every row has exactly one cell per column.  All tables the
pipeline builds satisfy it by construction. -/
def DF.Rect (df : DF) : Prop := ∀ r ∈ df.rows, r.length = df.cols.length

/-- Two tables that agree up to column order: same columns as a multiset,
same record count, and identical content for every column label. -/
def DFSim (d1 d2 : DF) : Prop :=
  d1.Rect ∧ d2.Rect ∧ d1.cols.Perm d2.cols ∧
  d1.rows.length = d2.rows.length ∧ ∀ c, getCol d1 c = getCol d2 c

/-- The zip codes whose rental and sale artifacts are both in the store (the
zips `analyze` adds to its dictionary), in `ZIP_CODES` order. -/
def zipsBoth (s : Store) : List String :=
  ZIP_CODES.filter (fun z =>
    (s.lookup (rentalPath z)).isSome && (s.lookup (salesPath z)).isSome)

/-- The value `analyze` stores in `d[zip_code]`:
`rental_df['price_per_sqft'].median() / sales_df['price_per_sqft'].median()`. -/
def storedQuot (s : Store) (z : String) : PVal :=
  match s.lookup (rentalPath z), s.lookup (salesPath z) with
  | some rdf, some sdf =>
    pdiv ((medianCol rdf "price_per_sqft").getD .nan)
      ((medianCol sdf "price_per_sqft").getD .nan)
  | _, _ => .nan

/-- A stored frame `analyze` can read without an exception: its three KPI
columns exist and are numeric.  Every artifact the acquisition path writes
satisfies this. -/
def wfDF (df : DF) : Bool :=
  (medianCol df "price_per_sqft").isSome &&
  (medianCol df "price_per_beds").isSome &&
  (medianCol df "price_per_bath").isSome

/-- Every artifact in the store is readable by `analyze`. -/
def storeWF (s : Store) : Bool := s.all (fun q => wfDF q.2)

/-! ### Concrete data used by the counterexamples and witnesses -/

/-- A fixed calendar date standing for `datetime.now().strftime('%Y-%m-%d')`. -/
def today0 : String := "2026-10-12"

/-- The spec's flattening-correctness example listing:
`{"address": {"city": "X"}, "building_size": {"size": 1200}, "price": 240000,
"beds": 3, "baths": 2}` (note: it has no `lot_size` field). -/
def exListing : Listing :=
  [("address", .obj [("city", .str "X")]),
   ("building_size", .obj [("size", .num 1200)]),
   ("price", .scalar (.num 240000)),
   ("beds", .scalar (.num 3)),
   ("baths", .scalar (.num 2))]

/-- A listing carrying all three nested fields. -/
def auxListing : Listing :=
  [("address", .obj [("city", .str "Y")]),
   ("lot_size", .obj [("size", .num 5000)]),
   ("building_size", .obj [("size", .num 1000)]),
   ("price", .scalar (.num 100000)),
   ("beds", .scalar (.num 2)),
   ("baths", .scalar (.num 1))]

/-- A listing with all three nested fields and chosen numeric values. -/
def sampleListing (bs price beds baths : ℚ) : Listing :=
  [("address", .obj [("city", .str "C")]),
   ("lot_size", .obj [("size", .num 1000)]),
   ("building_size", .obj [("size", .num bs)]),
   ("price", .scalar (.num price)),
   ("beds", .scalar (.num beds)),
   ("baths", .scalar (.num baths))]

/-- Acquire a rental and a sale dataset for one zip into a store. -/
def acquireZip (s : Store) (z : String) (rentals sales : List Listing) : Store :=
  (gen_sales_data today0 (salesPath z)
    (gen_rental_data today0 (rentalPath z) s [.payload rentals]).store
    [.payload sales]).store

/-- Store in which zip 55414's rental data contains a listing with
`building_size_size = 0` (hence an infinite `price_per_sqft`) next to a
listing with `price_per_sqft = 1`, and whose sale data has median
`price_per_sqft = 1`. -/
def c4Store : Store :=
  acquireZip [] "55414"
    [sampleListing 100 100 1 1, sampleListing 0 100 1 1]
    [sampleListing 100 100 1 1]

/-- Store in which zips 55414 and 53711 both have quotient `2`. -/
def c5TieStore : Store :=
  acquireZip (acquireZip [] "55414"
      [sampleListing 100 200 1 1] [sampleListing 100 100 1 1])
    "53711" [sampleListing 100 200 1 1] [sampleListing 100 100 1 1]

/-- Store realising the spec's ranking-determinism example: zip 55414 has
quotient `2.0` and zip 53711 has quotient `1.5`. -/
def c5DetStore : Store :=
  acquireZip (acquireZip [] "55414"
      [sampleListing 100 200 1 1] [sampleListing 100 100 1 1])
    "53711" [sampleListing 100 150 1 1] [sampleListing 100 100 1 1]

/-- Store in which zip 55414 has both datasets but zip 53711 has only a sale
dataset. -/
def c8Store : Store :=
  (gen_sales_data today0 (salesPath "53711")
    (acquireZip [] "55414" [sampleListing 100 200 1 1] [sampleListing 100 100 1 1])
    [.payload [sampleListing 100 100 1 1]]).store

/-- The rental normalization of the all-fields listing. -/
def c9dfR : DF := (normalize COLS_EXPAND_RENTAL today0 [auxListing]).getD default

/-- The sale normalization of the all-fields listing. -/
def c9dfS : DF := (normalize COLS_EXPAND_SALES today0 [auxListing]).getD default

/-!
## Theorems

The claim theorems, with their supporting lemmas.
-/

/-- One-step unfolding of `gen_data` (the automatically generated equation
lemmas are not usable here because of the nested matches). -/
theorem gen_data_unfold (cs : List String) (t path : String) (store : Store)
    (rs : List Raw) :
    gen_data cs t path store rs =
      match check_run_today store path with
      | none => ⟨0, store, .crash⟩
      | some chk =>
        if chk = some (.scalar (.str t)) then ⟨0, store, .alreadyToday⟩
        else
          match rs with
          | [] => ⟨0, store, .exhausted⟩
          | r :: rest =>
            match r with
            | .malformed _ =>
              let k := gen_data cs t path store rest
              ⟨k.fetches + 1, k.store, k.outcome⟩
            | .payload props =>
              if props.isEmpty then ⟨1, store, .noListings⟩
              else
                match normalize cs t props with
                | none => ⟨1, store, .crash⟩
                | some df => ⟨1, store.put path df, .wrote⟩ := by
  cases rs with
  | nil => rfl
  | cons r rest => cases r <;> rfl

/-- C1, counterexample: two consecutive malformed responses do NOT abort the
acquisition — with a third, well-formed response supplied, the code fetches a
third time and writes an artifact, contradicting "a second consecutive
malformed response aborts that (zip_code, kind) acquisition without writing
any artifact". -/
theorem c1_counterexample :
    (gen_rental_data today0 "p" []
      [.malformed "r1", .malformed "r2", .payload [auxListing]]).fetches = 3 ∧
    (gen_rental_data today0 "p" []
      [.malformed "r1", .malformed "r2", .payload [auxListing]]).outcome
      = .wrote ∧
    ((gen_rental_data today0 "p" []
      [.malformed "r1", .malformed "r2", .payload [auxListing]]).store.lookup
      "p").isSome = true := by
  exact ⟨by decide, by decide, by decide⟩

/-- C1, amended: when the staleness check does not stop the acquisition and
the fetched payload is malformed, the operation logs it and retries the whole
acquisition; the retry is unbounded self-recursion, so a further malformed
response triggers yet another retry rather than aborting, and as long as the
responses stay malformed nothing is ever written (the store is untouched and
one extra fetch accumulates per malformed response). -/
theorem c1_amended (cs : List String) (t path m : String) (store : Store)
    (rest : List Raw) (chk : Option LVal)
    (hchk : check_run_today store path = some chk)
    (hne : chk ≠ some (.scalar (.str t))) :
    gen_data cs t path store (.malformed m :: rest) =
      ⟨(gen_data cs t path store rest).fetches + 1,
       (gen_data cs t path store rest).store,
       (gen_data cs t path store rest).outcome⟩ ∧
    (∀ rs : List Raw, (∀ r ∈ rs, ∃ x, r = .malformed x) →
      gen_data cs t path store rs = ⟨rs.length, store, .exhausted⟩) := by
  constructor
  · conv_lhs => rw [gen_data]
    simp [hchk, hne]
  · intro rs hall
    induction rs with
    | nil => rw [gen_data]; simp [hchk, hne]
    | cons r rs ih =>
      obtain ⟨x, rfl⟩ := hall r (by simp)
      rw [gen_data]
      simp [hchk, hne, ih (fun y hy => hall y (by simp [hy]))]

/-- Witness for `c1_amended` at a concrete input. -/
theorem c1_amended_witness :
    gen_data COLS_EXPAND_RENTAL today0 "p" [] [.malformed "m"] =
      ⟨(gen_data COLS_EXPAND_RENTAL today0 "p" [] []).fetches + 1,
       (gen_data COLS_EXPAND_RENTAL today0 "p" [] []).store,
       (gen_data COLS_EXPAND_RENTAL today0 "p" [] []).outcome⟩ :=
  (c1_amended COLS_EXPAND_RENTAL today0 "p" "m" [] [] none rfl
    (by decide)).1

/-- C3, counterexample: on the spec's own flattening example — a payload whose
only listing is
`{"address": {"city": "X"}, "building_size": {"size": 1200}, "price": 240000,
"beds": 3, "baths": 2}` — normalization does not produce a record at all: the
table has no `lot_size` column, `df.drop('lot_size', axis=1)` raises
`KeyError`, and the acquisition crashes without writing. -/
theorem c3_counterexample :
    normalize COLS_EXPAND_RENTAL today0 [exListing] = none ∧
    gen_rental_data today0 "p" [] [.payload [exListing]] = ⟨1, [], .crash⟩ := by
  exact ⟨by decide, by decide⟩

/-- C3, amended: the claimed flattening and KPI values do hold for the example
listing provided the payload also makes a `lot_size` column exist (here via a
sibling listing); then the example's record has `city = "X"`,
`building_size_size = 1200`, `price_per_sqft = 200`, `price_per_beds = 80000`,
`price_per_bath = 120000`.  (Alone, the example payload raises `KeyError`; see
the counterexample.) -/
theorem c3_amended :
    (normalize COLS_EXPAND_RENTAL today0 [exListing, auxListing]).map
      (fun df =>
        (cellAt df 0 "city", cellAt df 0 "building_size_size",
         cellAt df 0 "price_per_sqft", cellAt df 0 "price_per_beds",
         cellAt df 0 "price_per_bath")) =
    some (some (.scalar (.str "X")), some (.scalar (.num 1200)),
          some (.scalar (.num 200)), some (.scalar (.num 80000)),
          some (.scalar (.num 120000))) := by
  decide

/-- C7: a successfully parsed payload with zero listings writes no artifact
(the store is returned unchanged), performs the single fetch, and ends in the
informational `noListings` outcome — not an error.  Holds for both listing
kinds (`cs` is arbitrary). -/
theorem c7_empty_payload (cs : List String) (t path : String) (store : Store)
    (rs : List Raw) (chk : Option LVal)
    (hchk : check_run_today store path = some chk)
    (hne : chk ≠ some (.scalar (.str t))) :
    gen_data cs t path store (.payload [] :: rs) = ⟨1, store, .noListings⟩ := by
  rw [gen_data]
  simp [hchk, hne]

/-- Witness for `c7_empty_payload` at a concrete input. -/
theorem c7_empty_payload_witness :
    gen_data COLS_EXPAND_RENTAL today0 "p" [] [.payload []] =
      ⟨1, [], .noListings⟩ :=
  c7_empty_payload COLS_EXPAND_RENTAL today0 "p" [] [] none rfl (by decide)

/-! ### Structural lemmas about the table operations -/

theorem getCol_length {df : DF} {c : String} {vals : List LVal}
    (h : getCol df c = some vals) : vals.length = df.rows.length := by
  unfold getCol at h
  split at h
  · cases h
  · simp only [Option.some.injEq] at h
    subst h
    simp

theorem mkDF_rows_length (ls : List Listing) :
    (mkDF ls).rows.length = ls.length := by
  simp [mkDF]

theorem mkDF_rect (ls : List Listing) : (mkDF ls).Rect := by
  intro r hr
  simp only [mkDF, List.mem_map] at hr
  obtain ⟨l, _, rfl⟩ := hr
  simp [mkDF]

theorem findIdx?_lt {l : List String} {c : String} {i : ℕ}
    (h : l.findIdx? (fun b => b = c) = some i) : i < l.length :=
  (List.findIdx?_eq_some_iff_getElem.mp h).1

theorem findIdx?_name {l : List String} {c : String} {i : ℕ}
    (h : l.findIdx? (fun b => b = c) = some i) :
    ∃ hi : i < l.length, l.get ⟨i, hi⟩ = c := by
  obtain ⟨hi, hp, -⟩ := List.findIdx?_eq_some_iff_getElem.mp h
  exact ⟨hi, by simpa using hp⟩

theorem expandCol_rows_length {df d : DF} {c p : String}
    (h : expandCol df c p = some d) : d.rows.length = df.rows.length := by
  unfold expandCol at h
  split at h
  · cases h
  · simp only [Option.some.injEq] at h
    subst h
    simp

theorem expandCol_rect {df d : DF} {c p : String}
    (h : expandCol df c p = some d) (hrect : df.Rect) : d.Rect := by
  unfold expandCol at h
  split at h
  · cases h
  · rename_i i hf
    simp only [Option.some.injEq] at h
    subst h
    intro r hr
    simp only [List.mem_map] at hr
    obtain ⟨r0, hr0, rfl⟩ := hr
    have hi : i < df.cols.length := findIdx?_lt hf
    have hl : r0.length = df.cols.length := hrect r0 hr0
    simp [List.length_eraseIdx, hi, hl]

theorem setCol_rows_length {df : DF} {c : String} {vals : List LVal}
    (hv : vals.length = df.rows.length) :
    (setCol df c vals).rows.length = df.rows.length := by
  unfold setCol
  split <;> simp [hv]

theorem setCol_rect {df : DF} {c : String} {vals : List LVal}
    (hrect : df.Rect) : (setCol df c vals).Rect := by
  unfold setCol
  split
  · intro r hr
    simp only [List.mem_map] at hr
    obtain ⟨⟨r0, v⟩, hmem, rfl⟩ := hr
    have h0 := hrect r0 (List.of_mem_zip hmem).1
    simp [h0]
  · intro r hr
    simp only [List.mem_map] at hr
    obtain ⟨⟨r0, v⟩, hmem, rfl⟩ := hr
    have h0 := hrect r0 (List.of_mem_zip hmem).1
    simp [h0]

theorem rowSet_getD {cols : List String} {c : String} {i : ℕ}
    (hf : cols.findIdx? (fun b => b = c) = some i)
    {r : List LVal} (hlen : r.length = cols.length) (v : LVal) :
    ((cols.zip r).map (fun nv => if nv.1 = c then v else nv.2)).getD i
      (.scalar .nan) = v := by
  obtain ⟨hi, hname⟩ := findIdx?_name hf
  have hzl : i < ((cols.zip r).map
      (fun nv => if nv.1 = c then v else nv.2)).length := by
    simp [List.length_zip, hlen, hi]
  rw [List.getD_eq_getElem _ _ hzl, List.getElem_map, List.getElem_zip]
  simp only [List.get_eq_getElem] at hname
  simp [hname]

theorem rowSet_getD_ne {cols : List String} {c c' : String} {i : ℕ}
    (hf : cols.findIdx? (fun b => b = c') = some i) (hne : c' ≠ c)
    {r : List LVal} (hlen : r.length = cols.length) (v : LVal) :
    ((cols.zip r).map (fun nv => if nv.1 = c then v else nv.2)).getD i
      (.scalar .nan) = r.getD i (.scalar .nan) := by
  obtain ⟨hi, hname⟩ := findIdx?_name hf
  have hir : i < r.length := by rw [hlen]; exact hi
  have hzl : i < ((cols.zip r).map
      (fun nv => if nv.1 = c then v else nv.2)).length := by
    simp [List.length_zip, hlen, hi]
  rw [List.getD_eq_getElem _ _ hzl, List.getElem_map, List.getElem_zip,
    List.getD_eq_getElem _ _ hir]
  simp only [List.get_eq_getElem] at hname
  simp [hname, hne]

theorem contains_findIdx? {cols : List String} {c : String}
    (h : cols.contains c = true) :
    ∃ i, cols.findIdx? (fun b => b = c) = some i := by
  cases hfi : cols.findIdx? (fun b => b = c) with
  | some i => exact ⟨i, rfl⟩
  | none =>
    rw [List.findIdx?_eq_none_iff] at hfi
    simp only [List.contains_iff_exists_mem_beq] at h
    obtain ⟨a, ha, hab⟩ := h
    have h2 := hfi a ha
    simp only [beq_iff_eq] at hab
    simp [hab] at h2

theorem not_contains_findIdx? {cols : List String} {c : String}
    (h : ¬ cols.contains c = true) :
    cols.findIdx? (fun b => b = c) = none := by
  rw [List.findIdx?_eq_none_iff]
  intro x hx
  simp only [List.contains_iff_exists_mem_beq] at h
  push_neg at h
  have h2 := h x hx
  simp only [decide_eq_false_iff_not]
  exact fun hxc => h2 (by simp [hxc])

theorem getCol_setCol_self {df : DF} {c : String} {vals : List LVal}
    (hrect : df.Rect) (hv : vals.length = df.rows.length) :
    getCol (setCol df c vals) c = some vals := by
  unfold setCol
  split
  · rename_i hcont
    obtain ⟨i, hf⟩ := contains_findIdx? hcont
    unfold getCol
    simp only [hf, Option.some.injEq]
    rw [List.map_map]
    calc (df.rows.zip vals).map _
        = (df.rows.zip vals).map Prod.snd := by
          apply List.map_congr_left
          intro rv hmem
          exact rowSet_getD hf (hrect rv.1 (List.of_mem_zip hmem).1) rv.2
      _ = vals := List.map_snd_zip _ _ (le_of_eq hv)
  · rename_i hcont
    unfold getCol
    have hf : (df.cols ++ [c]).findIdx? (fun b => b = c) =
        some df.cols.length := by
      rw [List.findIdx?_append, not_contains_findIdx? hcont]
      simp [List.findIdx?_cons]
    simp only [hf, Option.some.injEq]
    rw [List.map_map]
    calc (df.rows.zip vals).map _
        = (df.rows.zip vals).map Prod.snd := by
          apply List.map_congr_left
          intro rv hmem
          have h0 := hrect rv.1 (List.of_mem_zip hmem).1
          show (rv.1 ++ [rv.2]).getD df.cols.length (.scalar .nan) = rv.2
          rw [List.getD_append_right _ _ _ _ (le_of_eq h0)]
          simp [h0]
      _ = vals := List.map_snd_zip _ _ (le_of_eq hv)

theorem getCol_setCol_ne {df : DF} {c c' : String} {vals : List LVal}
    (hrect : df.Rect) (hv : vals.length = df.rows.length) (hne : c' ≠ c) :
    getCol (setCol df c vals) c' = getCol df c' := by
  unfold setCol
  split
  · unfold getCol
    cases hf : df.cols.findIdx? (fun b => b = c') with
    | none => simp [hf]
    | some i =>
      simp only [hf, Option.some.injEq]
      rw [List.map_map]
      calc (df.rows.zip vals).map _
          = (df.rows.zip vals).map
              ((fun r => r.getD i (.scalar .nan)) ∘ Prod.fst) := by
            apply List.map_congr_left
            intro rv hmem
            exact rowSet_getD_ne hf hne
              (hrect rv.1 (List.of_mem_zip hmem).1) rv.2
        _ = df.rows.map (fun r => r.getD i (.scalar .nan)) := by
            rw [← List.map_map, List.map_fst_zip _ _ (le_of_eq hv.symm)]
  · unfold getCol
    have hfa : (df.cols ++ [c]).findIdx? (fun b => b = c') =
        df.cols.findIdx? (fun b => b = c') := by
      rw [List.findIdx?_append]
      cases hf : df.cols.findIdx? (fun b => b = c') with
      | some i => simp
      | none => simp [List.findIdx?_cons, Ne.symm hne]
    rw [hfa]
    cases hf : df.cols.findIdx? (fun b => b = c') with
    | none => simp
    | some i =>
      simp only [Option.some.injEq]
      rw [List.map_map]
      have hi : i < df.cols.length := findIdx?_lt hf
      calc (df.rows.zip vals).map _
          = (df.rows.zip vals).map
              ((fun r => r.getD i (.scalar .nan)) ∘ Prod.fst) := by
            apply List.map_congr_left
            intro rv hmem
            have h0 := hrect rv.1 (List.of_mem_zip hmem).1
            show (rv.1 ++ [rv.2]).getD i (.scalar .nan) = _
            exact List.getD_append _ _ _ _ (h0 ▸ hi)
        _ = df.rows.map (fun r => r.getD i (.scalar .nan)) := by
            rw [← List.map_map, List.map_fst_zip _ _ (le_of_eq hv.symm)]

theorem pdiv_nonFinite_of_bad_divisor (x y : PVal)
    (h : y = .num 0 ∨ y = .nan) : nonFinite (pdiv x y) = true := by
  have hnum : ∀ a : ℚ, nonFinite (pdiv (.num a) (.num 0)) = true := by
    intro a
    by_cases h0 : a = 0
    · simp [pdiv, h0, nonFinite]
    · by_cases hp : 0 < a <;> simp [pdiv, h0, hp, nonFinite]
  rcases h with rfl | rfl <;> cases x <;> first | exact hnum _ | rfl

theorem get_kpis_eq {df : DF} {ps sq bd ba : List LVal}
    (hps : getCol df "price" = some ps)
    (hsq : getCol df "building_size_size" = some sq)
    (hbd : getCol df "beds" = some bd)
    (hba : getCol df "baths" = some ba)
    (hnum : (ps ++ sq ++ bd ++ ba).all numericCell = true) :
    get_kpis df = some (setCol (setCol (setCol df "price_per_sqft"
      (kdiv ps sq)) "price_per_beds" (kdiv ps bd)) "price_per_bath"
      (kdiv ps ba)) := by
  unfold get_kpis
  rw [hps, hsq, hbd, hba]
  exact if_pos hnum

theorem get_kpis_spec {df d : DF} (hrect : df.Rect)
    (h : get_kpis df = some d) :
    d.rows.length = df.rows.length ∧ d.Rect ∧
    ∀ c', c' ≠ "price_per_sqft" → c' ≠ "price_per_beds" →
      c' ≠ "price_per_bath" → getCol d c' = getCol df c' := by
  unfold get_kpis at h
  split at h
  · rename_i ps sq bd ba hps hsq hbd hba
    split at h
    · simp only [Option.some.injEq] at h
      subst h
      have lps := getCol_length hps
      have lsq := getCol_length hsq
      have lbd := getCol_length hbd
      have lba := getCol_length hba
      have hk1 : (kdiv ps sq).length = df.rows.length := by
        simp [kdiv, lps, lsq]
      set d1 := setCol df "price_per_sqft" (kdiv ps sq) with hd1
      have e1 : d1.rows.length = df.rows.length := setCol_rows_length hk1
      have r1 : d1.Rect := setCol_rect hrect
      have hk2 : (kdiv ps bd).length = d1.rows.length := by
        rw [e1]; simp [kdiv, lps, lbd]
      set d2 := setCol d1 "price_per_beds" (kdiv ps bd) with hd2
      have e2 : d2.rows.length = d1.rows.length := setCol_rows_length hk2
      have r2 : d2.Rect := setCol_rect r1
      have hk3 : (kdiv ps ba).length = d2.rows.length := by
        rw [e2, e1]; simp [kdiv, lps, lba]
      refine ⟨by simp [setCol_rows_length hk3, e2, e1], setCol_rect r2, ?_⟩
      intro c' h1 h2 h3
      rw [getCol_setCol_ne r2 hk3 h3, getCol_setCol_ne r1 hk2 h2,
        getCol_setCol_ne hrect hk1 h1]
    · cases h
  · cases h

theorem expandAll_spec {cs : List String} {ls : List Listing} {d : DF}
    (h : expandAll cs ls = some d) :
    d.Rect ∧ d.rows.length = ls.length := by
  unfold expandAll at h
  suffices H : ∀ (cs' : List String) (df d' : DF),
      cs'.foldlM (fun df col => expandCol df col (pfxOf col)) df = some d' →
      df.Rect → d'.Rect ∧ d'.rows.length = df.rows.length by
    obtain ⟨h1, h2⟩ := H cs (mkDF ls) d h (mkDF_rect ls)
    exact ⟨h1, by rw [h2, mkDF_rows_length]⟩
  intro cs'
  induction cs' with
  | nil =>
    intro df d' h hr
    simp only [List.foldlM_nil, pure, Option.some.injEq] at h
    subst h
    exact ⟨hr, rfl⟩
  | cons c cs' ih =>
    intro df d' h hr
    rw [List.foldlM_cons] at h
    cases he : expandCol df c (pfxOf c) with
    | none => rw [he] at h; simp at h
    | some df1 =>
      rw [he] at h
      simp only [Option.bind_eq_bind, Option.some_bind] at h
      obtain ⟨h1, h2⟩ := ih df1 d' h (expandCol_rect he hr)
      exact ⟨h1, by rw [h2, expandCol_rows_length he]⟩

theorem normalize_spec {cs : List String} {t : String} {ls : List Listing}
    {d : DF} (h : normalize cs t ls = some d) :
    d.Rect ∧ d.rows.length = ls.length ∧
    getCol d "run_date" =
      some (List.replicate ls.length (.scalar (.str t))) := by
  unfold normalize at h
  cases he : expandAll cs ls with
  | none => rw [he] at h; simp at h
  | some df1 =>
    rw [he] at h
    simp only [Option.bind_eq_bind, Option.some_bind] at h
    obtain ⟨hrect1, hlen1⟩ := expandAll_spec he
    have hvlen : (df1.rows.map
        (fun _ => (LVal.scalar (.str t)))).length = df1.rows.length := by simp
    have hrect2 : (setCol df1 "run_date"
        (df1.rows.map (fun _ => LVal.scalar (.str t)))).Rect := setCol_rect hrect1
    have hlen2 : (setCol df1 "run_date"
        (df1.rows.map (fun _ => LVal.scalar (.str t)))).rows.length =
        df1.rows.length := setCol_rows_length hvlen
    obtain ⟨hklen, hkrect, hkcol⟩ := get_kpis_spec hrect2 h
    refine ⟨hkrect, by rw [hklen, hlen2, hlen1], ?_⟩
    rw [hkcol _ (by decide) (by decide) (by decide),
      getCol_setCol_self hrect1 hvlen]
    rw [List.map_const', hlen1]

theorem gen_data_wrote {cs : List String} {t path : String} {store : Store}
    {rs : List Raw}
    (h : (gen_data cs t path store rs).outcome = .wrote) :
    ∃ df, (gen_data cs t path store rs).store.lookup path = some df ∧
      df.rows ≠ [] ∧
      getCol df "run_date" =
        some (List.replicate df.rows.length (.scalar (.str t))) ∧
      check_run_today (gen_data cs t path store rs).store path =
        some (some (.scalar (.str t))) := by
  induction rs with
  | nil =>
    rw [gen_data_unfold] at h
    cases hc : check_run_today store path with
    | none => simp only [hc] at h; cases h
    | some chk =>
      simp only [hc] at h
      by_cases hch : chk = some (.scalar (.str t)) <;> simp [hch] at h
  | cons r rest ih =>
    rw [gen_data_unfold] at h ⊢
    cases hc : check_run_today store path with
    | none => simp only [hc] at h; cases h
    | some chk =>
      simp only [hc] at h ⊢
      by_cases hch : chk = some (.scalar (.str t))
      · simp only [if_pos hch] at h; cases h
      · simp only [if_neg hch] at h ⊢
        cases r with
        | malformed m =>
          dsimp only at h ⊢
          exact ih h
        | payload props =>
          simp only at h ⊢
          by_cases hpe : props.isEmpty
          · simp only [if_pos hpe] at h; cases h
          · simp only [if_neg hpe] at h ⊢
            cases hn : normalize cs t props with
            | none => simp only [hn] at h; cases h
            | some df =>
              simp only [hn] at h ⊢
              obtain ⟨hrect, hlen, hrd⟩ := normalize_spec hn
              have hprops : props ≠ [] := by
                intro hp; subst hp; simp at hpe
              have hrows : df.rows ≠ [] := by
                intro hrw
                apply hprops
                have := hlen
                rw [hrw] at this
                cases props with
                | nil => rfl
                | cons a l => simp at this
              refine ⟨df, ?_, hrows, by rw [hrd, hlen], ?_⟩
              · simp [Store.put, List.lookup_cons]
              · unfold check_run_today
                have hl : List.lookup path ((path, df) :: store) = some df := by
                  simp [List.lookup_cons]
                simp only [Store.put, hl, hrd]
                cases hp : props with
                | nil => exact absurd hp hprops
                | cons a l => simp [List.replicate_succ]

/-- C10: the acquisition writes only non-empty tables that carry a `run_date`
column, so `check_run_today`'s read of the first record's `run_date`
(`df['run_date'].iloc[0]`) on a written artifact always succeeds: after any
acquisition that wrote, the artifact at the path exists, has at least one
record, its `run_date` column is present, and the staleness check returns
today's date rather than raising. -/
theorem c10_written_artifact_readable {cs : List String} {t path : String}
    {store : Store} {rs : List Raw}
    (h : (gen_data cs t path store rs).outcome = .wrote) :
    ∃ df, (gen_data cs t path store rs).store.lookup path = some df ∧
      df.rows ≠ [] ∧ getCol df "run_date" ≠ none ∧
      check_run_today (gen_data cs t path store rs).store path =
        some (some (.scalar (.str t))) := by
  obtain ⟨df, h1, h2, h3, h4⟩ := gen_data_wrote h
  exact ⟨df, h1, h2, by rw [h3]; simp, h4⟩

/-- Witness for `c10_written_artifact_readable` at a concrete input. -/
theorem c10_witness :
    ∃ df, (gen_data COLS_EXPAND_RENTAL today0 "p" []
        [.payload [auxListing]]).store.lookup "p" = some df ∧
      df.rows ≠ [] ∧ getCol df "run_date" ≠ none ∧
      check_run_today (gen_data COLS_EXPAND_RENTAL today0 "p" []
        [.payload [auxListing]]).store "p" =
        some (some (.scalar (.str today0))) :=
  c10_written_artifact_readable (by decide)

/-- C2, amended: (a) when the artifact's first record carries today's date the
call performs no fetch and no write (informational no-op); (b) after any call
that wrote, a second same-day call for the same key is such a no-op; (c) a
first call on a well-formed, non-empty payload performs exactly one fetch and
one write.  Together: two same-day calls make exactly one fetch and one write
provided the first call writes — the original claim's unconditional
"consequently" part fails for empty/malformed payloads (see the
counterexample). -/
theorem c2_amended (cs : List String) (t path : String) (store : Store) :
    (∀ rs, check_run_today store path = some (some (.scalar (.str t))) →
      gen_data cs t path store rs = ⟨0, store, .alreadyToday⟩) ∧
    (∀ rs rs', (gen_data cs t path store rs).outcome = .wrote →
      gen_data cs t path (gen_data cs t path store rs).store rs' =
        ⟨0, (gen_data cs t path store rs).store, .alreadyToday⟩) ∧
    (∀ props df chk, props ≠ [] → normalize cs t props = some df →
      check_run_today store path = some chk →
      chk ≠ some (.scalar (.str t)) →
      gen_data cs t path store [.payload props] =
        ⟨1, store.put path df, .wrote⟩) := by
  refine ⟨?_, ?_, ?_⟩
  · intro rs hchk
    rw [gen_data_unfold]
    simp [hchk]
  · intro rs rs' hw
    obtain ⟨df, -, -, -, hck⟩ := gen_data_wrote hw
    rw [gen_data_unfold]
    simp [hck]
  · intro props df chk hne hn hchk hnet
    rw [gen_data_unfold]
    have hpe : props.isEmpty = false := by
      cases props with
      | nil => exact absurd rfl hne
      | cons a l => rfl
    simp [hchk, hnet, hpe, hn]

/-- Witness for `c2_amended` at a concrete input: the second same-day call
after a successful write is a no-op. -/
theorem c2_amended_witness :
    gen_data COLS_EXPAND_RENTAL today0 "p"
      (gen_data COLS_EXPAND_RENTAL today0 "p" []
        [.payload [auxListing]]).store [.payload [auxListing]] =
    ⟨0, (gen_data COLS_EXPAND_RENTAL today0 "p" []
        [.payload [auxListing]]).store, .alreadyToday⟩ :=
  (c2_amended COLS_EXPAND_RENTAL today0 "p" []).2.1
    [.payload [auxListing]] [.payload [auxListing]] (by decide)

/-- C2, counterexample: with an empty-`properties` payload, two same-day
`acquire` calls perform two upstream fetches and zero artifact writes — not
"exactly one fetch and one write in total" as claimed. -/
theorem c2_counterexample :
    (gen_rental_data today0 "p" [] [.payload []]).fetches = 1 ∧
    (gen_rental_data today0 "p" [] [.payload []]).store = [] ∧
    (gen_rental_data today0 "p"
      (gen_rental_data today0 "p" [] [.payload []]).store
      [.payload []]).fetches = 1 ∧
    (gen_rental_data today0 "p"
      (gen_rental_data today0 "p" [] [.payload []]).store
      [.payload []]).store = [] ∧
    ¬((gen_rental_data today0 "p" [] [.payload []]).fetches +
      (gen_rental_data today0 "p"
        (gen_rental_data today0 "p" [] [.payload []]).store
        [.payload []]).fetches = 1) := by
  exact ⟨by decide, by decide, by decide, by decide, by decide⟩

/-- C6: `get_kpis` is total on any rectangular table with the four numeric
input columns: it returns a table (never an exception) with the same number of
records, whose three KPI columns are the elementwise IEEE divisions; and any
division by a zero or missing (NaN) divisor yields a non-finite value rather
than raising. -/
theorem c6_get_kpis_total {df : DF} {ps sq bd ba : List LVal}
    (hrect : df.Rect)
    (hps : getCol df "price" = some ps)
    (hsq : getCol df "building_size_size" = some sq)
    (hbd : getCol df "beds" = some bd)
    (hba : getCol df "baths" = some ba)
    (hnum : (ps ++ sq ++ bd ++ ba).all numericCell = true) :
    ∃ d, get_kpis df = some d ∧ d.rows.length = df.rows.length ∧
      getCol d "price_per_sqft" = some (kdiv ps sq) ∧
      getCol d "price_per_beds" = some (kdiv ps bd) ∧
      getCol d "price_per_bath" = some (kdiv ps ba) ∧
      ∀ x y : LVal, toP y = .num 0 ∨ toP y = .nan →
        nonFinite (pdiv (toP x) (toP y)) = true := by
  have heq := get_kpis_eq hps hsq hbd hba hnum
  have lps := getCol_length hps
  have lsq := getCol_length hsq
  have lbd := getCol_length hbd
  have lba := getCol_length hba
  have hk1 : (kdiv ps sq).length = df.rows.length := by simp [kdiv, lps, lsq]
  set d1 := setCol df "price_per_sqft" (kdiv ps sq) with hd1
  have e1 : d1.rows.length = df.rows.length := setCol_rows_length hk1
  have r1 : d1.Rect := setCol_rect hrect
  have hk2 : (kdiv ps bd).length = d1.rows.length := by
    rw [e1]; simp [kdiv, lps, lbd]
  set d2 := setCol d1 "price_per_beds" (kdiv ps bd) with hd2
  have e2 : d2.rows.length = d1.rows.length := setCol_rows_length hk2
  have r2 : d2.Rect := setCol_rect r1
  have hk3 : (kdiv ps ba).length = d2.rows.length := by
    rw [e2, e1]; simp [kdiv, lps, lba]
  refine ⟨_, heq, by simp [setCol_rows_length hk3, e2, e1], ?_, ?_, ?_, ?_⟩
  · rw [getCol_setCol_ne r2 hk3 (by decide),
      getCol_setCol_ne r1 hk2 (by decide), getCol_setCol_self hrect hk1]
  · rw [getCol_setCol_ne r2 hk3 (by decide), getCol_setCol_self r1 hk2]
  · rw [getCol_setCol_self r2 hk3]
  · exact fun x y h => pdiv_nonFinite_of_bad_divisor (toP x) (toP y) h

/-- Witness for `c6_get_kpis_total` at a concrete one-record table with a
zero `beds` divisor, a zero square footage and a missing `baths` value. -/
theorem c6_witness :
    ∃ d, get_kpis (⟨["price", "building_size_size", "beds", "baths"],
        [[.scalar (.num 100), .scalar (.num 0), .scalar (.num 0),
          .scalar .nan]]⟩ : DF) = some d ∧
      d.rows.length = (⟨["price", "building_size_size", "beds", "baths"],
        [[.scalar (.num 100), .scalar (.num 0), .scalar (.num 0),
          .scalar .nan]]⟩ : DF).rows.length ∧
      getCol d "price_per_sqft" =
        some (kdiv [.scalar (.num 100)] [.scalar (.num 0)]) ∧
      getCol d "price_per_beds" =
        some (kdiv [.scalar (.num 100)] [.scalar (.num 0)]) ∧
      getCol d "price_per_bath" =
        some (kdiv [.scalar (.num 100)] [.scalar .nan]) ∧
      ∀ x y : LVal, toP y = .num 0 ∨ toP y = .nan →
        nonFinite (pdiv (toP x) (toP y)) = true :=
  c6_get_kpis_total (by intro r hr; simp at hr; subst hr; rfl)
    rfl rfl rfl rfl rfl

/-- C4, counterexample: an infinite KPI value DOES contribute to the
downstream medians.  In `c4Store` (built by the acquisition itself) zip
55414's rental data holds `price_per_sqft` values `[1, +inf]` (the second from
a listing with `building_size_size = 0`), and the produced quotient is `+inf`:
`median([1, inf]) = inf` in pandas, whereas the claim's "median over only the
finite KPI values" would give `1.0`. -/
theorem c4_counterexample :
    analyze c4Store = some [("55414", .pinf)] ∧
    (c4Store.lookup (rentalPath "55414")).map
      (fun df => (df.rows.length, cellAt df 1 "price_per_sqft")) =
      some (2, some (.scalar .pinf)) ∧
    pmedian [.num 1, .pinf] = .pinf ∧
    pdiv (specFiniteMedian [.num 1, .pinf]) (specFiniteMedian [.num 1]) =
      .num 1 ∧
    PVal.pinf ≠ PVal.num 1 := by
  exact ⟨by decide, by decide, by decide, by decide, by decide⟩

/-- C4, amended: a record with a zero or missing KPI divisor gets a non-finite
KPI value and remains in the Dataset; NaN values (missing divisor, or `0/0`)
are skipped by the medians and contribute nothing; but infinite values
(nonzero price over a zero divisor) do participate in the median — the
downstream medians are over the non-NaN values, not over only the finite
ones. -/
theorem c4_amended :
    (∀ xs : List PVal, pmedian (.nan :: xs) = pmedian xs) ∧
    ((get_kpis (⟨["price", "beds", "baths", "building_size_size"],
        [[.scalar (.num 100), .scalar (.num 0), .scalar (.num 1),
          .scalar (.num 100)]]⟩ : DF)).map (fun d =>
        (d.rows.length, cellAt d 0 "price_per_beds")) =
      some (1, some (.scalar .pinf))) ∧
    pmedian [.num 1, .pinf] = .pinf ∧
    pmedian [.nan, .num 1, .num 3] = .num 2 := by
  refine ⟨?_, by decide, by decide, by decide⟩
  intro xs
  simp [pmedian, isNan]

/-! ### Lemmas about `analyze` -/

theorem lookup_mem {l : List (String × DF)} {a : String} {b : DF}
    (h : List.lookup a l = some b) : (a, b) ∈ l := by
  induction l with
  | nil => cases h
  | cons q l ih =>
    rw [show q = (q.1, q.2) from rfl, List.lookup_cons] at h
    cases hk : a == q.1 with
    | true =>
      rw [hk] at h
      simp only [Option.some.injEq] at h
      have : a = q.1 := by simpa using hk
      rw [this, ← h]
      exact List.mem_cons_self _ _
    | false =>
      rw [hk] at h
      exact List.mem_cons_of_mem _ (ih h)

theorem storeWF_lookup {s : Store} {p : String} {df : DF}
    (hwf : storeWF s = true) (h : s.lookup p = some df) : wfDF df = true :=
  (List.all_eq_true.mp hwf) (p, df) (lookup_mem h)

theorem zipEntry_some {s : Store} {z : String} {p : String × PVal}
    (h : zipEntry s z = some (some p)) :
    p = (z, storedQuot s z) ∧
    ((s.lookup (rentalPath z)).isSome && (s.lookup (salesPath z)).isSome)
      = true := by
  unfold zipEntry at h
  cases hr : s.lookup (rentalPath z) with
  | none =>
    rw [hr] at h
    cases hs : s.lookup (salesPath z) <;> rw [hs] at h <;> simp at h
  | some rdf =>
    cases hs : s.lookup (salesPath z) with
    | none => rw [hr, hs] at h; simp at h
    | some sdf =>
      rw [hr, hs] at h
      simp only [Option.bind_eq_bind, Option.bind_eq_some, Option.pure_def,
        Option.some.injEq] at h
      obtain ⟨m1, h1, m2, h2, m3, h3, m4, h4, m5, h5, m6, h6, hp⟩ := h
      refine ⟨?_, by simp [hr, hs]⟩
      rw [← hp]
      unfold storedQuot
      rw [hr, hs]
      dsimp only
      rw [h1, h2]
      rfl

theorem zipEntry_none {s : Store} {z : String}
    (h : zipEntry s z = some none) :
    ((s.lookup (rentalPath z)).isSome && (s.lookup (salesPath z)).isSome)
      = false := by
  cases hr : s.lookup (rentalPath z) with
  | none => simp [hr]
  | some rdf =>
    cases hs : s.lookup (salesPath z) with
    | none => simp [hs]
    | some sdf =>
      exfalso
      unfold zipEntry at h
      rw [hr, hs] at h
      simp only [Option.bind_eq_bind, Option.bind_eq_some, Option.pure_def,
        Option.some.injEq] at h
      obtain ⟨m1, h1, m2, h2, m3, h3, m4, h4, m5, h5, m6, h6, hp⟩ := h
      cases hp

theorem zipEntry_ne_none_of_wf {s : Store} (hwf : storeWF s = true)
    (z : String) : zipEntry s z ≠ none := by
  unfold zipEntry
  cases hr : s.lookup (rentalPath z) with
  | none => cases hs : s.lookup (salesPath z) <;> simp
  | some rdf =>
    cases hs : s.lookup (salesPath z) with
    | none => simp
    | some sdf =>
      have hwr := storeWF_lookup hwf hr
      have hws := storeWF_lookup hwf hs
      unfold wfDF at hwr hws
      simp only [Bool.and_eq_true, Option.isSome_iff_exists] at hwr hws
      obtain ⟨⟨⟨m1, h1⟩, ⟨m2, h2⟩⟩, ⟨m3, h3⟩⟩ := hwr
      obtain ⟨⟨⟨m4, h4⟩, ⟨m5, h5⟩⟩, ⟨m6, h6⟩⟩ := hws
      simp [h1, h2, h3, h4, h5, h6]

theorem analyze_entries {s : Store} :
    ∀ (zs : List String) (acc : List (String × PVal)),
    (∀ z ∈ zs, zipEntry s z ≠ none) →
    zs.foldlM (fun acc z => do
      let e ← zipEntry s z
      match e with
      | some p => pure (acc ++ [p])
      | none => pure acc) acc =
    some (acc ++ (zs.filter (fun z => (s.lookup (rentalPath z)).isSome &&
      (s.lookup (salesPath z)).isSome)).map
        (fun z => (z, storedQuot s z))) := by
  intro zs
  induction zs with
  | nil => intro acc h; simp
  | cons z zs ih =>
    intro acc h
    rw [List.foldlM_cons]
    cases he : zipEntry s z with
    | none => exact absurd he (h z (List.mem_cons_self _ _))
    | some e =>
      cases e with
      | some p =>
        obtain ⟨rfl, hboth⟩ := zipEntry_some he
        have hfil : List.filter (fun y => (List.lookup (rentalPath y) s).isSome
              && (List.lookup (salesPath y) s).isSome) (z :: zs) =
            z :: List.filter (fun y => (List.lookup (rentalPath y) s).isSome
              && (List.lookup (salesPath y) s).isSome) zs := by
          simp [List.filter_cons, hboth]
        rw [hfil]
        refine (ih (acc ++ [(z, storedQuot s z)])
          (fun y hy => h y (List.mem_cons_of_mem _ hy))).trans ?_
        simp [List.append_assoc]
      | none =>
        have hnb := zipEntry_none he
        have hfil : List.filter (fun y => (List.lookup (rentalPath y) s).isSome
              && (List.lookup (salesPath y) s).isSome) (z :: zs) =
            List.filter (fun y => (List.lookup (rentalPath y) s).isSome
              && (List.lookup (salesPath y) s).isSome) zs := by
          simp [List.filter_cons, hnb]
        rw [hfil]
        exact ih acc (fun y hy => h y (List.mem_cons_of_mem _ hy))

theorem analyze_eq {s : Store}
    (h : ∀ z ∈ ZIP_CODES, zipEntry s z ≠ none) :
    analyze s =
      some (sortRanking ((zipsBoth s).map (fun z => (z, storedQuot s z)))) := by
  unfold analyze
  rw [analyze_entries ZIP_CODES [] h]
  simp [zipsBoth]

theorem sortRanking_perm (l : List (String × PVal)) :
    (sortRanking l).Perm l := by
  unfold sortRanking
  have h1 : (List.insertionSort rankLE
      (l.filter (fun e => ¬ isNan e.2))).Perm
      (l.filter (fun e => ¬ isNan e.2)) := List.perm_insertionSort _ _
  refine (h1.append_right _).trans ?_
  have h2 : l.filter (fun e => isNan e.2) =
      l.filter (fun x => !(fun e => (¬ isNan e.2 : Bool)) x) := by
    apply List.filter_congr
    intro a _
    cases h : isNan a.2 <;> simp [h]
  rw [h2]
  exact List.filter_append_perm _ l

theorem foldlM_ne_none {s : Store} :
    ∀ (zs : List String) (acc E : List (String × PVal)),
    zs.foldlM (fun acc z => do
      let e ← zipEntry s z
      match e with
      | some p => pure (acc ++ [p])
      | none => pure acc) acc = some E →
    ∀ z ∈ zs, zipEntry s z ≠ none := by
  intro zs
  induction zs with
  | nil => intro acc E h z hz; simp at hz
  | cons z0 zs ih =>
    intro acc E h z hz
    rw [List.foldlM_cons] at h
    cases he : zipEntry s z0 with
    | none => rw [he] at h; simp at h
    | some e =>
      rw [he] at h
      simp only [Option.bind_eq_bind, Option.some_bind] at h
      rcases List.mem_cons.mp hz with rfl | hz'
      · simp [he]
      · cases e with
        | some p =>
          exact ih (acc ++ [p]) E h z hz'
        | none =>
          exact ih acc E h z hz'

theorem analyze_some {s : Store} {l : List (String × PVal)}
    (h : analyze s = some l) :
    l = sortRanking ((zipsBoth s).map (fun z => (z, storedQuot s z))) ∧
    ∀ e ∈ l, e.1 ∈ zipsBoth s ∧ e.2 = storedQuot s e.1 := by
  have hall : ∀ z ∈ ZIP_CODES, zipEntry s z ≠ none := by
    have h' := h
    unfold analyze at h'
    cases hf : ZIP_CODES.foldlM (fun acc z => do
        let e ← zipEntry s z
        match e with
        | some p => pure (acc ++ [p])
        | none => pure acc) ([] : List (String × PVal)) with
    | none => rw [hf] at h'; simp at h'
    | some E => exact foldlM_ne_none ZIP_CODES [] E hf
  have heq := analyze_eq hall
  rw [h] at heq
  have hl : l = sortRanking ((zipsBoth s).map
      (fun z => (z, storedQuot s z))) := by
    simpa using heq
  refine ⟨hl, ?_⟩
  intro e he
  rw [hl] at he
  have hmem : e ∈ (zipsBoth s).map (fun z => (z, storedQuot s z)) :=
    (sortRanking_perm _).subset he
  simp only [List.mem_map] at hmem
  obtain ⟨z, hz, rfl⟩ := hmem
  exact ⟨hz, rfl⟩

/-- C8: a zip code missing either dataset is excluded from the ranking and
aggregation does not raise — on any store whose artifacts are readable (as all
pipeline-written artifacts are), `analyze` succeeds and its output ranks
exactly the zip codes that have both artifacts. -/
theorem c8_partial_data {s : Store} (hwf : storeWF s = true) :
    ∃ l, analyze s = some l ∧
      ∀ z ∈ ZIP_CODES,
        ((((s.lookup (rentalPath z)).isSome &&
          (s.lookup (salesPath z)).isSome) = true) ↔ z ∈ l.map Prod.fst) := by
  have hall : ∀ z ∈ ZIP_CODES, zipEntry s z ≠ none :=
    fun z _ => zipEntry_ne_none_of_wf hwf z
  refine ⟨_, analyze_eq hall, ?_⟩
  intro z hz
  have hperm : ((sortRanking ((zipsBoth s).map
      (fun z => (z, storedQuot s z)))).map Prod.fst).Perm
      (((zipsBoth s).map (fun z => (z, storedQuot s z))).map Prod.fst) :=
    (sortRanking_perm _).map Prod.fst
  rw [hperm.mem_iff]
  rw [List.map_map]
  have hid : ((fun z => (z, storedQuot s z)) · |> Prod.fst) = id := rfl
  constructor
  · intro hboth
    simp only [List.mem_map]
    refine ⟨z, ?_, rfl⟩
    unfold zipsBoth
    rw [List.mem_filter]
    exact ⟨hz, hboth⟩
  · intro hm
    simp only [List.mem_map] at hm
    obtain ⟨y, hy, hyz⟩ := hm
    have : y = z := hyz
    subst this
    unfold zipsBoth at hy
    exact (List.mem_filter.mp hy).2

/-- Witness for `c8_partial_data` at a concrete store where zip 55414 has
both datasets and zip 53711 only a sale dataset. -/
theorem c8_partial_data_witness :
    ∃ l, analyze c8Store = some l ∧
      ∀ z ∈ ZIP_CODES,
        ((((c8Store.lookup (rentalPath z)).isSome &&
          (c8Store.lookup (salesPath z)).isSome) = true) ↔
            z ∈ l.map Prod.fst) :=
  c8_partial_data (by decide)

/-- C5, counterexample: ties in the final ranking are NOT broken by zip-code
natural order.  In `c5TieStore` zips 55414 and 53711 both have quotient `2`,
and the code outputs 55414 before 53711 (the `ZIP_CODES` iteration order),
whereas `"53711" < "55414"` in natural order — the claim would require 53711
first. -/
theorem c5_counterexample :
    analyze c5TieStore = some [("55414", .num 2), ("53711", .num 2)] ∧
    ("53711" < "55414") ∧
    [("55414", PVal.num 2), ("53711", PVal.num 2)] ≠
      [("53711", PVal.num 2), ("55414", PVal.num 2)] := by
  refine ⟨by decide, ?_, by decide⟩
  rw [String.lt_iff_toList_lt]
  decide

/-- C5, amended: the ranking pairs exactly the zip codes having both datasets
with the quotient of the stored `price_per_sqft` medians, and is sorted by
that value in descending order (NaN-valued entries last); ties between equal
values keep the configured `ZIP_CODES` iteration order — not zip-code natural
order (see the counterexample); on the spec's determinism example the output
is `[55414 ↦ 2.0, 53711 ↦ 1.5]`. -/
theorem c5_amended {s : Store} {l : List (String × PVal)}
    (h : analyze s = some l) :
    (∀ e ∈ l, e.1 ∈ zipsBoth s ∧ e.2 = storedQuot s e.1) ∧
    List.Sorted rankLE (l.filter (fun e => ¬ isNan e.2)) ∧
    analyze c5TieStore = some [("55414", .num 2), ("53711", .num 2)] ∧
    analyze c5DetStore = some [("55414", .num 2), ("53711", .num (3/2))] := by
  obtain ⟨hl, hprop⟩ := analyze_some h
  refine ⟨hprop, ?_, by decide, by decide⟩
  rw [hl]
  unfold sortRanking
  rw [List.filter_append]
  have hA : (List.insertionSort rankLE
      (((zipsBoth s).map (fun z => (z, storedQuot s z))).filter
        (fun e => ¬ isNan e.2))).filter (fun e => ¬ isNan e.2) =
      List.insertionSort rankLE
        (((zipsBoth s).map (fun z => (z, storedQuot s z))).filter
          (fun e => ¬ isNan e.2)) := by
    rw [List.filter_eq_self]
    intro a ha
    have hmem : a ∈ ((zipsBoth s).map
        (fun z => (z, storedQuot s z))).filter (fun e => ¬ isNan e.2) :=
      (List.perm_insertionSort rankLE _).subset ha
    exact (List.mem_filter.mp hmem).2
  have hB : (((zipsBoth s).map (fun z => (z, storedQuot s z))).filter
      (fun e => isNan e.2)).filter (fun e => ¬ isNan e.2) = [] := by
    rw [List.filter_eq_nil_iff]
    intro a ha
    have := (List.mem_filter.mp ha).2
    simp [this]
  rw [hA, hB, List.append_nil]
  exact List.sorted_insertionSort rankLE _

/-- Witness for `c5_amended` at the tie store. -/
theorem c5_amended_witness :
    (∀ e ∈ [("55414", PVal.num 2), ("53711", PVal.num 2)],
      e.1 ∈ zipsBoth c5TieStore ∧ e.2 = storedQuot c5TieStore e.1) ∧
    List.Sorted rankLE ([("55414", PVal.num 2),
      ("53711", PVal.num 2)].filter (fun e => ¬ isNan e.2)) ∧
    analyze c5TieStore = some [("55414", .num 2), ("53711", .num 2)] ∧
    analyze c5DetStore = some [("55414", .num 2), ("53711", .num (3/2))] :=
  c5_amended (by decide)

/-! ### Generic list lemmas for the expansion-order analysis -/

theorem eraseIdx_findIdx? {α : Type*} : ∀ (l : List α) (p : α → Bool) (i : ℕ),
    l.findIdx? p = some i → l.eraseIdx i = l.eraseP p := by
  intro l
  induction l with
  | nil => intro p i h; simp [List.findIdx?_nil] at h
  | cons a l ih =>
    intro p i h
    rw [List.findIdx?_cons] at h
    by_cases hp : p a
    · rw [if_pos hp] at h
      simp only [Option.some.injEq] at h
      subst h
      rw [List.eraseIdx_cons_zero, List.eraseP_cons_of_pos hp]
    · rw [if_neg hp, List.findIdx?_succ] at h
      cases hf : l.findIdx? p with
      | none => rw [hf] at h; simp at h
      | some j =>
        rw [hf] at h
        simp only [Option.map_some', Option.some.injEq] at h
        subst h
        rw [List.eraseIdx_cons_succ, List.eraseP_cons_of_neg hp, ih p j hf]

theorem find?_of_findIdx? {α : Type*} : ∀ (l : List α) (p : α → Bool) (i : ℕ),
    l.findIdx? p = some i →
    ∃ h : i < l.length, l.find? p = some (l.get ⟨i, h⟩) := by
  intro l
  induction l with
  | nil => intro p i h; simp [List.findIdx?_nil] at h
  | cons a l ih =>
    intro p i h
    rw [List.findIdx?_cons] at h
    by_cases hp : p a
    · rw [if_pos hp] at h
      simp only [Option.some.injEq] at h
      subst h
      exact ⟨by simp, by rw [List.find?_cons_of_pos _ hp]; rfl⟩
    · rw [if_neg hp, List.findIdx?_succ] at h
      cases hf : l.findIdx? p with
      | none => rw [hf] at h; simp at h
      | some j =>
        rw [hf] at h
        simp only [Option.map_some', Option.some.injEq] at h
        subst h
        obtain ⟨hj, hfind⟩ := ih p j hf
        exact ⟨by simpa using Nat.succ_lt_succ hj,
          by rw [List.find?_cons_of_neg _ hp, hfind]; rfl⟩

theorem findIdx?_zip_fst {cols : List String} {r : List LVal} {c : String}
    {i : ℕ} (h : cols.findIdx? (fun b => b = c) = some i)
    (hlen : r.length = cols.length) :
    (cols.zip r).findIdx? (fun q => q.1 = c) = some i := by
  obtain ⟨hi, hp, hmin⟩ := List.findIdx?_eq_some_iff_getElem.mp h
  apply List.findIdx?_eq_some_iff_getElem.mpr
  have hzl : i < (cols.zip r).length := by
    simp [List.length_zip, hlen, hi]
  refine ⟨hzl, ?_, ?_⟩
  · rw [List.getElem_zip]
    exact hp
  · intro j hj hpj
    have hjz : j < (cols.zip r).length := lt_trans hj hzl
    rw [List.getElem_zip] at hpj
    exact hmin j hj hpj

theorem getD_zip_cellOf {cols : List String} {r : List LVal} {c : String}
    {i : ℕ} (h : cols.findIdx? (fun b => b = c) = some i)
    (hlen : r.length = cols.length) :
    r.getD i (.scalar .nan) = cellOf (cols.zip r) c := by
  have hz := findIdx?_zip_fst h hlen
  obtain ⟨hzi, hfind⟩ := find?_of_findIdx? _ _ _ hz
  obtain ⟨hi, -, -⟩ := List.findIdx?_eq_some_iff_getElem.mp h
  have hir : i < r.length := by rw [hlen]; exact hi
  unfold cellOf
  rw [hfind]
  simp only [List.get_eq_getElem, List.getElem_zip, Option.map_some',
    Option.getD_some]
  exact List.getD_eq_getElem _ _ hir

theorem zip_eraseIdx {α β : Type*} : ∀ (l : List α) (r : List β) (i : ℕ),
    l.length = r.length →
    (l.zip r).eraseIdx i = (l.eraseIdx i).zip (r.eraseIdx i) := by
  intro l
  induction l with
  | nil => intro r i h; simp
  | cons a l ih =>
    intro r i h
    cases r with
    | nil => simp at h
    | cons b r =>
      cases i with
      | zero => simp [List.eraseIdx_cons_zero]
      | succ j =>
        simp only [List.zip_cons_cons, List.eraseIdx_cons_succ]
        rw [ih r j (by simpa using h)]

theorem eraseP_comm {α : Type*} {p q : α → Bool}
    (hpq : ∀ x, ¬(p x = true ∧ q x = true)) :
    ∀ l : List α, (l.eraseP p).eraseP q = (l.eraseP q).eraseP p := by
  intro l
  induction l with
  | nil => simp
  | cons a l ih =>
    by_cases hp : p a
    · have hq : ¬ q a = true := fun hq => hpq a ⟨hp, hq⟩
      rw [List.eraseP_cons_of_pos hp, List.eraseP_cons_of_neg hq,
        List.eraseP_cons_of_pos hp]
    · by_cases hq : q a
      · rw [List.eraseP_cons_of_neg hp, List.eraseP_cons_of_pos hq,
          List.eraseP_cons_of_pos hq]
      · rw [List.eraseP_cons_of_neg hp, List.eraseP_cons_of_neg hq,
          List.eraseP_cons_of_neg hq, List.eraseP_cons_of_neg hp, ih]

theorem find?_eraseP_disjoint {α : Type*} {p q : α → Bool}
    (hpq : ∀ x, ¬(p x = true ∧ q x = true)) :
    ∀ l : List α, (l.eraseP p).find? q = l.find? q := by
  intro l
  induction l with
  | nil => simp
  | cons a l ih =>
    by_cases hp : p a
    · have hq : ¬ q a = true := fun hq => hpq a ⟨hp, hq⟩
      rw [List.eraseP_cons_of_pos hp, List.find?_cons_of_neg _ hq]
    · rw [List.eraseP_cons_of_neg hp]
      by_cases hq : q a
      · rw [List.find?_cons_of_pos _ hq, List.find?_cons_of_pos _ hq]
      · rw [List.find?_cons_of_neg _ hq, List.find?_cons_of_neg _ hq, ih]

theorem map_fst_eraseP {β : Type*} (c : String) :
    ∀ l : List (String × β),
    (l.eraseP (fun q => q.1 = c)).map Prod.fst =
      (l.map Prod.fst).eraseP (fun b => b = c) := by
  intro l
  induction l with
  | nil => simp
  | cons a l ih =>
    by_cases h : a.1 = c
    · rw [List.eraseP_cons_of_pos (by simpa using h), List.map_cons,
        List.eraseP_cons_of_pos (by simpa using h)]
    · rw [List.eraseP_cons_of_neg (by simpa using h), List.map_cons,
        List.map_cons, List.eraseP_cons_of_neg (by simpa using h), ih]

theorem find?_append_swap {α : Type*} {q : α → Bool} {l1 l2 : List α}
    (h : ¬((∃ x ∈ l1, q x = true) ∧ ∃ x ∈ l2, q x = true)) :
    (l1 ++ l2).find? q = (l2 ++ l1).find? q := by
  rw [List.find?_append, List.find?_append]
  cases hf1 : l1.find? q with
  | none => simp
  | some a =>
    cases hf2 : l2.find? q with
    | none => simp
    | some b =>
      exact absurd ⟨⟨a, List.mem_of_find?_eq_some hf1, List.find?_some hf1⟩,
        ⟨b, List.mem_of_find?_eq_some hf2, List.find?_some hf2⟩⟩ h

theorem append_ne_of_head {s t : String} {c d : Char} {cs ds : List Char}
    (hs : s.data = c :: cs) (ht : t.data = d :: ds) (hne : c ≠ d) :
    ∀ k k' : String, s ++ k ≠ t ++ k' := by
  intro k k' h
  have hd := congrArg String.data h
  rw [String.data_append, String.data_append, hs, ht] at hd
  simp only [List.cons_append, List.cons.injEq] at hd
  exact hne hd.1

theorem append_ne_single {s t : String} {c d : Char} {cs ds : List Char}
    (hs : s.data = c :: cs) (ht : t.data = d :: ds) (hne : c ≠ d) :
    ∀ k : String, s ++ k ≠ t := by
  intro k h
  have hd := congrArg String.data h
  rw [String.data_append, hs, ht] at hd
  simp only [List.cons_append, List.cons.injEq] at hd
  exact hne hd.1

theorem eraseP_append_left_names {α : Type*} {p : α → Bool} {X Y : List α}
    (h : ∀ y ∈ Y, ¬ p y = true) :
    (X ++ Y).eraseP p = X.eraseP p ++ Y := by
  rw [List.eraseP_append]
  by_cases hx : X.any p = true
  · rw [if_pos hx]
  · rw [if_neg hx, List.eraseP_of_forall_not h,
      List.eraseP_of_forall_not (List.any_eq_false.mp
        (Bool.not_eq_true _ ▸ (by simpa using hx)))]

theorem or_comm_of_not_both {α : Type*} {o1 o2 : Option α}
    (h : ¬(o1.isSome = true ∧ o2.isSome = true)) : o1.or o2 = o2.or o1 := by
  cases o1 with
  | none => simp
  | some a =>
    cases o2 with
    | none => simp
    | some b => exact absurd ⟨rfl, rfl⟩ h

/-- The result of one expansion step, expressed through the association-row
view: the expanded column's pairs are removed (first occurrence by label) and
the prefixed sub-field pairs are appended. -/
theorem expandCol_bridge {df d : DF} {C p : String}
    (hrect : df.Rect) (h : expandCol df C p = some d) :
    d.cols = df.cols.eraseP (fun b => b = C) ++
      (expSubCols (rowAssoc df) C).map (fun k => p ++ k) ∧
    rowAssoc d = (rowAssoc df).map (fun pr =>
      pr.eraseP (fun q => q.1 = C) ++
      (expSubCols (rowAssoc df) C).map (fun k =>
        (p ++ k, LVal.scalar (((seriesOf (cellOf pr C)).lookup k).getD .nan)))) := by
  unfold expandCol at h
  split at h
  · cases h
  · rename_i i hf
    simp only [Option.some.injEq] at h
    subst h
    have hsub : firstDedup ((df.rows.map (fun r =>
        (seriesOf (r.getD i (.scalar .nan))).map Prod.fst)).flatten) =
        expSubCols (rowAssoc df) C := by
      unfold expSubCols rowAssoc
      congr 1
      congr 1
      rw [List.map_map]
      apply List.map_congr_left
      intro r hr
      simp only [Function.comp]
      rw [getD_zip_cellOf hf (hrect r hr)]
    constructor
    · show df.cols.eraseIdx i ++ _ = _
      rw [hsub, eraseIdx_findIdx? _ _ _ hf]
    · show (df.rows.map _).map _ = _
      unfold rowAssoc
      rw [List.map_map, List.map_map]
      apply List.map_congr_left
      intro r hr
      simp only [Function.comp]
      have hlen := hrect r hr
      have hi : i < df.cols.length := findIdx?_lt hf
      rw [hsub]
      have hlen2 : (df.cols.eraseIdx i).length = (r.eraseIdx i).length := by
        simp [List.length_eraseIdx, hi, hlen]
      rw [List.zip_append hlen2]
      congr 1
      · rw [← zip_eraseIdx _ _ _ (by rw [hlen]),
          eraseIdx_findIdx? _ _ _ (findIdx?_zip_fst hf hlen)]
      · rw [List.zip_map']
        apply List.map_congr_left
        intro k hk
        rw [getD_zip_cellOf hf hlen]

/-- `df[c]` through the association-row view. -/
theorem getCol_cellOf {df : DF} (hrect : df.Rect) (c : String) :
    getCol df c = if df.cols.contains c then
      some ((rowAssoc df).map (fun pr => cellOf pr c)) else none := by
  unfold getCol
  cases hf : df.cols.findIdx? (fun b => b = c) with
  | none =>
    have hnc : ¬ df.cols.contains c = true := by
      intro hc
      obtain ⟨i, hi⟩ := contains_findIdx? hc
      rw [hf] at hi
      cases hi
    rw [if_neg hnc]
  | some i =>
    obtain ⟨hi, hp⟩ := findIdx?_name hf
    have hcont : df.cols.contains c = true := by
      rw [List.contains_iff_exists_mem_beq]
      exact ⟨c, by rw [← hp]; exact List.get_mem _ _ _, by simp⟩
    rw [if_pos hcont]
    dsimp only
    congr 1
    unfold rowAssoc
    rw [List.map_map]
    apply List.map_congr_left
    intro r hr
    simp only [Function.comp]
    exact getD_zip_cellOf hf (hrect r hr)

theorem contains_eq_of_perm {l1 l2 : List String} (h : l1.Perm l2)
    (c : String) : l1.contains c = l2.contains c := by
  by_cases h1 : l1.contains c = true
  · rw [h1]
    rw [List.contains_iff_exists_mem_beq] at h1
    obtain ⟨a, ha, hb⟩ := h1
    exact (List.contains_iff_exists_mem_beq.mpr ⟨a, h.subset ha, hb⟩).symm
  · have h2 : ¬ l2.contains c = true := by
      intro h2
      apply h1
      rw [List.contains_iff_exists_mem_beq] at h2 ⊢
      obtain ⟨a, ha, hb⟩ := h2
      exact ⟨a, h.symm.subset ha, hb⟩
    rw [Bool.not_eq_true] at h1 h2
    rw [h1, h2]

theorem cellOf_append_right_none {X Y : List (String × LVal)} {c : String}
    (h : Y.find? (fun q => q.1 = c) = none) :
    cellOf (X ++ Y) c = cellOf X c := by
  unfold cellOf
  rw [List.find?_append, h, Option.or_none]

theorem cellOf_eraseP_disjoint {p : (String × LVal) → Bool} {c : String}
    (hpq : ∀ x, ¬(p x = true ∧ (x.1 = c : Bool) = true))
    (l : List (String × LVal)) :
    cellOf (l.eraseP p) c = cellOf l c := by
  unfold cellOf
  rw [find?_eraseP_disjoint hpq]

theorem expSubCols_map {F : List (String × LVal) → List (String × LVal)}
    {prs : List (List (String × LVal))} {c : String}
    (h : ∀ pr ∈ prs, cellOf (F pr) c = cellOf pr c) :
    expSubCols (prs.map F) c = expSubCols prs c := by
  unfold expSubCols
  congr 1
  congr 1
  rw [List.map_map]
  apply List.map_congr_left
  intro pr hpr
  simp only [Function.comp]
  rw [h pr hpr]

theorem cellOf_append_swap {base X Y : List (String × LVal)} {c : String}
    (h : ¬((X.find? (fun q => q.1 = c)).isSome = true ∧
      (Y.find? (fun q => q.1 = c)).isSome = true)) :
    cellOf (base ++ (X ++ Y)) c = cellOf (base ++ (Y ++ X)) c := by
  unfold cellOf
  rw [List.find?_append, List.find?_append, List.find?_append,
    List.find?_append, or_comm_of_not_both h]

/-- Expanding two distinct columns in either order yields the same table up
to column order, provided neither prefix can generate the other column's
label and the two prefixes generate disjoint label sets. -/
theorem expandCol_swap {df dL dLB dB dBL : DF} {L B pL pB : String}
    (hrect : df.Rect) (hLB : L ≠ B)
    (hpLB : ∀ k, pL ++ k ≠ B) (hpBL : ∀ k, pB ++ k ≠ L)
    (hdisj : ∀ k k', pL ++ k ≠ pB ++ k')
    (h1 : expandCol df L pL = some dL) (h2 : expandCol dL B pB = some dLB)
    (h3 : expandCol df B pB = some dB) (h4 : expandCol dB L pL = some dBL) :
    DFSim dLB dBL := by
  have hrL : dL.Rect := expandCol_rect h1 hrect
  have hrB : dB.Rect := expandCol_rect h3 hrect
  have hrLB : dLB.Rect := expandCol_rect h2 hrL
  have hrBL : dBL.Rect := expandCol_rect h4 hrB
  obtain ⟨hc1, ha1⟩ := expandCol_bridge hrect h1
  obtain ⟨hc2, ha2⟩ := expandCol_bridge hrL h2
  obtain ⟨hc3, ha3⟩ := expandCol_bridge hrect h3
  obtain ⟨hc4, ha4⟩ := expandCol_bridge hrB h4
  have hdP : ∀ x : String × LVal,
      ¬((x.1 = L : Bool) = true ∧ (x.1 = B : Bool) = true) := by
    intro x hx
    obtain ⟨hxl, hxb⟩ := hx
    simp only [decide_eq_true_eq] at hxl hxb
    exact hLB (hxl.symm.trans hxb)
  have hdPs : ∀ b : String,
      ¬((b = L : Bool) = true ∧ (b = B : Bool) = true) := by
    intro b hb
    obtain ⟨hbl, hbb⟩ := hb
    simp only [decide_eq_true_eq] at hbl hbb
    exact hLB (hbl.symm.trans hbb)
  have hdP' : ∀ x : String × LVal,
      ¬((x.1 = B : Bool) = true ∧ (x.1 = L : Bool) = true) := by
    intro x hx
    exact hdP x ⟨hx.2, hx.1⟩
  -- the expanded cell at the other label is untouched
  have hcellB : ∀ pr : List (String × LVal),
      cellOf (pr.eraseP (fun q => q.1 = L) ++
        (expSubCols (rowAssoc df) L).map (fun k =>
          (pL ++ k, LVal.scalar (((seriesOf (cellOf pr L)).lookup k).getD
            .nan)))) B = cellOf pr B := by
    intro pr
    rw [cellOf_append_right_none (by
      rw [List.find?_eq_none]
      intro x hx
      simp only [List.mem_map] at hx
      obtain ⟨k, -, rfl⟩ := hx
      simp [hpLB k])]
    exact cellOf_eraseP_disjoint hdP pr
  have hcellL : ∀ pr : List (String × LVal),
      cellOf (pr.eraseP (fun q => q.1 = B) ++
        (expSubCols (rowAssoc df) B).map (fun k =>
          (pB ++ k, LVal.scalar (((seriesOf (cellOf pr B)).lookup k).getD
            .nan)))) L = cellOf pr L := by
    intro pr
    rw [cellOf_append_right_none (by
      rw [List.find?_eq_none]
      intro x hx
      simp only [List.mem_map] at hx
      obtain ⟨k, -, rfl⟩ := hx
      simp [hpBL k])]
    exact cellOf_eraseP_disjoint hdP' pr
  -- the sub-columns computed after the other expansion agree
  have hsub2 : expSubCols (rowAssoc dL) B = expSubCols (rowAssoc df) B := by
    rw [ha1]
    exact expSubCols_map (fun pr _ => hcellB pr)
  have hsub4 : expSubCols (rowAssoc dB) L = expSubCols (rowAssoc df) L := by
    rw [ha3]
    exact expSubCols_map (fun pr _ => hcellL pr)
  -- canonical column lists
  have hcolsLB : dLB.cols =
      (df.cols.eraseP (fun b => b = L)).eraseP (fun b => b = B) ++
        ((expSubCols (rowAssoc df) L).map (fun k => pL ++ k) ++
          (expSubCols (rowAssoc df) B).map (fun k => pB ++ k)) := by
    rw [hc2, hsub2, hc1]
    rw [eraseP_append_left_names (by
      intro y hy
      simp only [List.mem_map] at hy
      obtain ⟨k, -, rfl⟩ := hy
      simp [hpLB k])]
    rw [List.append_assoc]
  have hcolsBL : dBL.cols =
      (df.cols.eraseP (fun b => b = B)).eraseP (fun b => b = L) ++
        ((expSubCols (rowAssoc df) B).map (fun k => pB ++ k) ++
          (expSubCols (rowAssoc df) L).map (fun k => pL ++ k)) := by
    rw [hc4, hsub4, hc3]
    rw [eraseP_append_left_names (by
      intro y hy
      simp only [List.mem_map] at hy
      obtain ⟨k, -, rfl⟩ := hy
      simp [hpBL k])]
    rw [List.append_assoc]
  have hperm : dLB.cols.Perm dBL.cols := by
    rw [hcolsLB, hcolsBL, eraseP_comm hdPs df.cols]
    exact List.Perm.append_left _ List.perm_append_comm
  -- canonical association rows
  have hrowLB : rowAssoc dLB = (rowAssoc df).map (fun pr =>
      (pr.eraseP (fun q => q.1 = L)).eraseP (fun q => q.1 = B) ++
        ((expSubCols (rowAssoc df) L).map (fun k =>
          (pL ++ k, LVal.scalar (((seriesOf (cellOf pr L)).lookup k).getD
            .nan))) ++
         (expSubCols (rowAssoc df) B).map (fun k =>
          (pB ++ k, LVal.scalar (((seriesOf (cellOf pr B)).lookup k).getD
            .nan))))) := by
    rw [ha2, hsub2, ha1, List.map_map]
    apply List.map_congr_left
    intro pr hpr
    simp only [Function.comp]
    rw [hcellB pr]
    rw [eraseP_append_left_names (by
      intro y hy
      simp only [List.mem_map] at hy
      obtain ⟨k, -, rfl⟩ := hy
      simp [hpLB k])]
    rw [List.append_assoc]
  have hrowBL : rowAssoc dBL = (rowAssoc df).map (fun pr =>
      (pr.eraseP (fun q => q.1 = B)).eraseP (fun q => q.1 = L) ++
        ((expSubCols (rowAssoc df) B).map (fun k =>
          (pB ++ k, LVal.scalar (((seriesOf (cellOf pr B)).lookup k).getD
            .nan))) ++
         (expSubCols (rowAssoc df) L).map (fun k =>
          (pL ++ k, LVal.scalar (((seriesOf (cellOf pr L)).lookup k).getD
            .nan))))) := by
    rw [ha4, hsub4, ha3, List.map_map]
    apply List.map_congr_left
    intro pr hpr
    simp only [Function.comp]
    rw [hcellL pr]
    rw [eraseP_append_left_names (by
      intro y hy
      simp only [List.mem_map] at hy
      obtain ⟨k, -, rfl⟩ := hy
      simp [hpBL k])]
    rw [List.append_assoc]
  refine ⟨hrLB, hrBL, hperm, ?_, ?_⟩
  · rw [expandCol_rows_length h2, expandCol_rows_length h1,
      expandCol_rows_length h4, expandCol_rows_length h3]
  · intro c
    rw [getCol_cellOf hrLB c, getCol_cellOf hrBL c]
    rw [contains_eq_of_perm hperm c]
    by_cases hc : dBL.cols.contains c = true
    · rw [if_pos hc, if_pos hc]
      congr 1
      rw [hrowLB, hrowBL, List.map_map, List.map_map]
      apply List.map_congr_left
      intro pr hpr
      simp only [Function.comp]
      rw [eraseP_comm hdP pr]
      apply cellOf_append_swap
      intro hboth
      obtain ⟨hsL, hsB⟩ := hboth
      rw [Option.isSome_iff_exists] at hsL hsB
      obtain ⟨x, hx⟩ := hsL
      obtain ⟨y, hy⟩ := hsB
      have hxm := List.mem_of_find?_eq_some hx
      have hym := List.mem_of_find?_eq_some hy
      have hxp := List.find?_some hx
      have hyp := List.find?_some hy
      simp only [List.mem_map] at hxm hym
      obtain ⟨k, -, rfl⟩ := hxm
      obtain ⟨k', -, rfl⟩ := hym
      simp only [decide_eq_true_eq] at hxp hyp
      exact hdisj k k' (hxp.trans hyp.symm)
    · rw [if_neg hc, if_neg hc]

theorem setCol_sim {d1 d2 : DF} (hsim : DFSim d1 d2) (c : String)
    {vals : List LVal} (hv : vals.length = d1.rows.length) :
    DFSim (setCol d1 c vals) (setCol d2 c vals) := by
  obtain ⟨hr1, hr2, hperm, hlen, hcols⟩ := hsim
  have hv2 : vals.length = d2.rows.length := by rw [hv, hlen]
  refine ⟨setCol_rect hr1, setCol_rect hr2, ?_, ?_, ?_⟩
  · by_cases hc : d2.cols.contains c = true
    · have hc1 : d1.cols.contains c = true := by
        rw [contains_eq_of_perm hperm c]; exact hc
      unfold setCol
      rw [if_pos hc1, if_pos hc]
      exact hperm
    · have hc1 : ¬ d1.cols.contains c = true := by
        rw [contains_eq_of_perm hperm c]; exact hc
      unfold setCol
      rw [if_neg hc1, if_neg hc]
      exact hperm.append_right _
  · rw [setCol_rows_length hv, setCol_rows_length hv2, hlen]
  · intro c'
    by_cases he : c' = c
    · subst he
      rw [getCol_setCol_self hr1 hv, getCol_setCol_self hr2 hv2]
    · rw [getCol_setCol_ne hr1 hv he, getCol_setCol_ne hr2 hv2 he]
      exact hcols c'

theorem get_kpis_sim {d1 d2 e1 : DF} (hsim : DFSim d1 d2)
    (h1 : get_kpis d1 = some e1) :
    ∃ e2, get_kpis d2 = some e2 ∧ DFSim e1 e2 := by
  obtain ⟨hr1, hr2, hperm, hlen, hcols⟩ := hsim
  unfold get_kpis at h1
  split at h1
  · rename_i ps sq bd ba hps hsq hbd hba
    split at h1
    · rename_i hnum
      simp only [Option.some.injEq] at h1
      subst h1
      have hps2 : getCol d2 "price" = some ps := by rw [← hcols]; exact hps
      have hsq2 : getCol d2 "building_size_size" = some sq := by
        rw [← hcols]; exact hsq
      have hbd2 : getCol d2 "beds" = some bd := by rw [← hcols]; exact hbd
      have hba2 : getCol d2 "baths" = some ba := by rw [← hcols]; exact hba
      have heq2 := get_kpis_eq hps2 hsq2 hbd2 hba2 hnum
      refine ⟨_, heq2, ?_⟩
      have lps := getCol_length hps
      have lsq := getCol_length hsq
      have lbd := getCol_length hbd
      have lba := getCol_length hba
      have s1 : DFSim (setCol d1 "price_per_sqft" (kdiv ps sq))
          (setCol d2 "price_per_sqft" (kdiv ps sq)) :=
        setCol_sim ⟨hr1, hr2, hperm, hlen, hcols⟩ _ (by simp [kdiv, lps, lsq])
      have s2 : DFSim (setCol (setCol d1 "price_per_sqft" (kdiv ps sq))
            "price_per_beds" (kdiv ps bd))
          (setCol (setCol d2 "price_per_sqft" (kdiv ps sq))
            "price_per_beds" (kdiv ps bd)) :=
        setCol_sim s1 _ (by
          rw [setCol_rows_length (by simp [kdiv, lps, lsq])]
          simp [kdiv, lps, lbd])
      exact setCol_sim s2 _ (by
        rw [setCol_rows_length (by
            rw [setCol_rows_length (by simp [kdiv, lps, lsq])]
            simp [kdiv, lps, lbd]),
          setCol_rows_length (by simp [kdiv, lps, lsq])]
        simp [kdiv, lps, lba])
    · cases h1
  · cases h1

theorem expandAll3 {c1 c2 c3 : String} {ls : List Listing} {d : DF}
    (h : expandAll [c1, c2, c3] ls = some d) :
    ∃ A x, expandCol (mkDF ls) c1 (pfxOf c1) = some A ∧
      expandCol A c2 (pfxOf c2) = some x ∧
      expandCol x c3 (pfxOf c3) = some d := by
  unfold expandAll at h
  rw [List.foldlM_cons] at h
  cases e1 : expandCol (mkDF ls) c1 (pfxOf c1) with
  | none => rw [e1] at h; simp at h
  | some A =>
    rw [e1] at h
    simp only [Option.bind_eq_bind, Option.some_bind] at h
    rw [List.foldlM_cons] at h
    cases e2 : expandCol A c2 (pfxOf c2) with
    | none => rw [e2] at h; simp at h
    | some x =>
      rw [e2] at h
      simp only [Option.bind_eq_bind, Option.some_bind] at h
      rw [List.foldlM_cons] at h
      cases e3 : expandCol x c3 (pfxOf c3) with
      | none => rw [e3] at h; simp at h
      | some y =>
        rw [e3] at h
        simp only [Option.bind_eq_bind, Option.some_bind, List.foldlM_nil,
          pure, Option.some.injEq] at h
        exact ⟨A, x, rfl, e2, by rw [← h]; exact e3⟩

/-- C9, counterexample: the rental and sale acquisitions do NOT produce
identical persisted datasets — the persisted column order differs, because
`cols_to_expand` lists `lot_size` before `building_size` in
`gen_rental_data` and after it in `gen_sales_data`. -/
theorem c9_counterexample :
    (normalize COLS_EXPAND_RENTAL today0 [auxListing]).map DF.cols =
      some ["price", "beds", "baths", "city", "lot_size_size",
        "building_size_size", "run_date", "price_per_sqft",
        "price_per_beds", "price_per_bath"] ∧
    (normalize COLS_EXPAND_SALES today0 [auxListing]).map DF.cols =
      some ["price", "beds", "baths", "city", "building_size_size",
        "lot_size_size", "run_date", "price_per_sqft",
        "price_per_beds", "price_per_bath"] ∧
    normalize COLS_EXPAND_RENTAL today0 [auxListing] ≠
      normalize COLS_EXPAND_SALES today0 [auxListing] := by
  exact ⟨by decide, by decide, by decide⟩

/-- C9, amended: on every payload on which both succeed, the two
normalizations produce the same datasets up to column order — the same
columns as a multiset, the same number of records and identical per-label
column contents; only the relative order of the `lot_size_*` and
`building_size_*` column blocks (and the upstream endpoint and storage path,
outside normalization) differ. -/
theorem c9_amended {t : String} {ls : List Listing} {dr ds : DF}
    (h1 : normalize COLS_EXPAND_RENTAL t ls = some dr)
    (h2 : normalize COLS_EXPAND_SALES t ls = some ds) :
    dr.cols.Perm ds.cols ∧ dr.rows.length = ds.rows.length ∧
    ∀ c, getCol dr c = getCol ds c := by
  unfold normalize at h1 h2
  cases hea1 : expandAll COLS_EXPAND_RENTAL ls with
  | none => rw [hea1] at h1; simp at h1
  | some x1 =>
  cases hea2 : expandAll COLS_EXPAND_SALES ls with
  | none => rw [hea2] at h2; simp at h2
  | some x2 =>
  rw [hea1] at h1
  rw [hea2] at h2
  simp only [Option.bind_eq_bind, Option.some_bind] at h1 h2
  obtain ⟨A1, y1, e11, e12, e13⟩ := expandAll3 hea1
  obtain ⟨A2, y2, e21, e22, e23⟩ := expandAll3 hea2
  rw [e11] at e21
  injection e21 with hA
  subst hA
  have hrectA : A1.Rect := expandCol_rect e11 (mkDF_rect ls)
  have hplot : pfxOf "lot_size" = "lot_size_" := by decide
  have hpbui : pfxOf "building_size" = "building_size_" := by decide
  have hsim : DFSim x1 x2 := by
    refine expandCol_swap hrectA (by decide) ?_ ?_ ?_ e12 e13 e22 e23
    · rw [hplot]
      exact @append_ne_single "lot_size_" "building_size" 'l' 'b' _ _
        rfl rfl (by decide)
    · rw [hpbui]
      exact @append_ne_single "building_size_" "lot_size" 'b' 'l' _ _
        rfl rfl (by decide)
    · rw [hplot, hpbui]
      exact @append_ne_of_head "lot_size_" "building_size_" 'l' 'b' _ _
        rfl rfl (by decide)
  have hlenx : x1.rows.length = x2.rows.length := hsim.2.2.2.1
  have hvals1 : x1.rows.map (fun _ => (LVal.scalar (.str t))) =
      List.replicate x1.rows.length (LVal.scalar (.str t)) :=
    List.map_const' _ _
  have hvals2 : x2.rows.map (fun _ => (LVal.scalar (.str t))) =
      List.replicate x1.rows.length (LVal.scalar (.str t)) := by
    rw [List.map_const', hlenx]
  rw [hvals1] at h1
  rw [hvals2] at h2
  have hsim2 : DFSim
      (setCol x1 "run_date"
        (List.replicate x1.rows.length (LVal.scalar (.str t))))
      (setCol x2 "run_date"
        (List.replicate x1.rows.length (LVal.scalar (.str t)))) :=
    setCol_sim hsim "run_date" (by simp)
  obtain ⟨e2', hk2, hsim3⟩ := get_kpis_sim hsim2 h1
  rw [h2] at hk2
  injection hk2 with hds
  subst hds
  exact ⟨hsim3.2.2.1, hsim3.2.2.2.1, hsim3.2.2.2.2⟩

/-- Witness for `c9_amended` on the all-fields listing. -/
theorem c9_amended_witness :
    c9dfR.cols.Perm c9dfS.cols ∧ c9dfR.rows.length = c9dfS.rows.length ∧
    getCol c9dfR "lot_size_size" = getCol c9dfS "lot_size_size" := by
  have h := c9_amended
    (show normalize COLS_EXPAND_RENTAL today0 [auxListing] = some c9dfR by
      decide)
    (show normalize COLS_EXPAND_SALES today0 [auxListing] = some c9dfS by
      decide)
  exact ⟨h.1, h.2.1, h.2.2 "lot_size_size"⟩

end Pipeline
